import Mathlib

/-!
Verification development for the pronote-cal synchronizer.

The definitions below are a shallow embedding of the repository code:

* src/pronote_client.py : content-hash generation (SHA-256 over normalized
  fields), assignment-type classification, exam-record deduplication;
* src/calendar_client.py : the destination-store adapter (hash-indexed
  search over a bounded window, create/update, study-reminder fan-out);
* src/lambda_function.py : the sync orchestrator loop;
* src/config.py : the configuration flags consulted by the orchestrator.

Machine integers do not occur in the Python source (all arithmetic is on
unbounded ints and dates); SHA-256 is modelled bit-exactly on Nat with
explicit reduction modulo 2^32.  Dates inside the orchestrator are modelled
as integer day numbers; dates inside the hash functions are modelled as
year/month/day triples rendered to ISO strings exactly as strftime does.
-/

/-! ## SHA-256 (hashlib.sha256, used by the fingerprint generator) -/

/-- Reduce to a 32-bit word. -/
def w32 (x : Nat) : Nat := x % 4294967296

/-- Rotate a 32-bit word right by n bits. -/
def rotr32 (n x : Nat) : Nat := w32 ((x >>> n) ||| (x <<< (32 - n)))

/-- The 64 SHA-256 round constants. -/
def sha256K : List Nat :=
  [1116352408, 1899447441, 3049323471, 3921009573, 961987163,
   1508970993, 2453635748, 2870763221, 3624381080, 310598401,
   607225278, 1426881987, 1925078388, 2162078206, 2614888103,
   3248222580, 3835390401, 4022224774, 264347078, 604807628,
   770255983, 1249150122, 1555081692, 1996064986, 2554220882,
   2821834349, 2952996808, 3210313671, 3336571891, 3584528711,
   113926993, 338241895, 666307205, 773529912, 1294757372,
   1396182291, 1695183700, 1986661051, 2177026350, 2456956037,
   2730485921, 2820302411, 3259730800, 3345764771, 3516065817,
   3600352804, 4094571909, 275423344, 430227734, 506948616,
   659060556, 883997877, 958139571, 1322822218, 1537002063,
   1747873779, 1955562222, 2024104815, 2227730452, 2361852424,
   2428436474, 2756734187, 3204031479, 3329325298]

/-- The SHA-256 initial hash state. -/
def sha256H0 : List Nat :=
  [1779033703, 3144134277, 1013904242, 2773480762,
   1359893119, 2600822924, 528734635, 1541459225]

/-- Big-endian byte rendering of a value, k bytes wide. -/
def bytesBE : Nat → Nat → List Nat
  | 0, _ => []
  | k + 1, v => bytesBE k (v >>> 8) ++ [v &&& 0xff]

/-- SHA-256 message padding: append 0x80, zero bytes to 56 mod 64, then the
bit length as an 8-byte big-endian integer. -/
def sha256pad (msg : List Nat) : List Nat :=
  let len := msg.length
  let zeros := (64 + 55 - len % 64) % 64
  msg ++ [0x80] ++ List.replicate zeros 0 ++ bytesBE 8 (len * 8)

/-- Split a byte list into 64-byte chunks (fuel-structured recursion; the
fuel is the list length, which bounds the number of chunks). -/
def chunks64Aux : Nat → List Nat → List (List Nat)
  | 0, _ => []
  | _, [] => []
  | fuel + 1, x :: xs => ((x :: xs).take 64) :: chunks64Aux fuel ((x :: xs).drop 64)

/-- Split a byte list into 64-byte chunks. -/
def chunks64 (l : List Nat) : List (List Nat) := chunks64Aux l.length l

/-- Combine bytes into big-endian 32-bit words. -/
def toWordsBE : List Nat → List Nat
  | b0 :: b1 :: b2 :: b3 :: rest =>
      ((((b0 <<< 8) ||| b1) <<< 8 ||| b2) <<< 8 ||| b3) :: toWordsBE rest
  | _ => []

/-- Extend the 16-word message schedule by n additional words. -/
def extendW : Nat → List Nat → List Nat
  | 0, w => w
  | n + 1, w =>
      let i := w.length
      let x15 := w.getD (i - 15) 0
      let x2 := w.getD (i - 2) 0
      let s0 := (rotr32 7 x15) ^^^ (rotr32 18 x15) ^^^ (x15 >>> 3)
      let s1 := (rotr32 17 x2) ^^^ (rotr32 19 x2) ^^^ (x2 >>> 10)
      extendW n (w ++ [w32 (w.getD (i - 16) 0 + s0 + w.getD (i - 7) 0 + s1)])

/-- One SHA-256 compression round; the state is the 8-word working vector. -/
def sha256Round (st : List Nat) (kw : Nat × Nat) : List Nat :=
  match st with
  | [a, b, c, d, e, f, g, h] =>
      let s1 := (rotr32 6 e) ^^^ (rotr32 11 e) ^^^ (rotr32 25 e)
      let ch := (e &&& f) ^^^ ((e ^^^ 0xffffffff) &&& g)
      let t1 := w32 (h + s1 + ch + kw.1 + kw.2)
      let s0 := (rotr32 2 a) ^^^ (rotr32 13 a) ^^^ (rotr32 22 a)
      let maj := (a &&& b) ^^^ (a &&& c) ^^^ (b &&& c)
      let t2 := w32 (s0 + maj)
      [w32 (t1 + t2), a, b, c, w32 (d + t1), e, f, g]
  | _ => st

/-- Process one 64-byte chunk against the running hash state. -/
def sha256Chunk (h : List Nat) (chunk : List Nat) : List Nat :=
  let w := extendW 48 (toWordsBE chunk)
  let st := (sha256K.zip w).foldl sha256Round h
  (h.zip st).map (fun p => w32 (p.1 + p.2))

/-- SHA-256 of a byte list, as eight 32-bit words. -/
def sha256Words (msg : List Nat) : List Nat :=
  (chunks64 (sha256pad msg)).foldl sha256Chunk sha256H0

/-- Lowercase hex digit for a nibble. -/
def hexDigit (n : Nat) : Char :=
  if n < 10 then Char.ofNat (48 + n) else Char.ofNat (87 + n)

/-- Eight-hex-digit rendering of a 32-bit word, most significant first. -/
def hex32 (v : Nat) : List Char :=
  [hexDigit ((v >>> 28) &&& 0xf), hexDigit ((v >>> 24) &&& 0xf),
   hexDigit ((v >>> 20) &&& 0xf), hexDigit ((v >>> 16) &&& 0xf),
   hexDigit ((v >>> 12) &&& 0xf), hexDigit ((v >>> 8) &&& 0xf),
   hexDigit ((v >>> 4) &&& 0xf), hexDigit (v &&& 0xf)]

/-- UTF-8 encoding of one character. -/
def utf8EncodeChar (c : Char) : List Nat :=
  let n := c.toNat
  if n < 0x80 then [n]
  else if n < 0x800 then
    [0xc0 ||| (n >>> 6), 0x80 ||| (n &&& 0x3f)]
  else if n < 0x10000 then
    [0xe0 ||| (n >>> 12), 0x80 ||| ((n >>> 6) &&& 0x3f), 0x80 ||| (n &&& 0x3f)]
  else
    [0xf0 ||| (n >>> 18), 0x80 ||| ((n >>> 12) &&& 0x3f),
     0x80 ||| ((n >>> 6) &&& 0x3f), 0x80 ||| (n &&& 0x3f)]

/-- UTF-8 encoding of a character list (str.encode in Python). -/
def utf8Bytes (l : List Char) : List Nat :=
  l.foldr (fun c acc => utf8EncodeChar c ++ acc) []

/-- hashlib.sha256(s.encode("utf-8")).hexdigest() on a character list. -/
def sha256hex (l : List Char) : String :=
  String.mk ((sha256Words (utf8Bytes l)).foldr (fun v acc => hex32 v ++ acc) [])

/-! ## String normalization helpers (Python str.strip, str.lower, in) -/

/-- Whitespace test matching Python str.strip on the ASCII whitespace
characters (space, tab, newline, carriage return, vertical tab, form feed);
the repository only ever strips these. -/
def pyIsSpace (c : Char) : Bool :=
  c.toNat == 32 || c.toNat == 9 || c.toNat == 10 ||
  c.toNat == 13 || c.toNat == 11 || c.toNat == 12

/-- Lowercasing of one character matching Python str.lower on ASCII and on
the Latin-1 uppercase range (0xC0-0xDE except the multiplication sign),
which covers every character the repository compares. -/
def pyLowerChar (c : Char) : Char :=
  let n := c.toNat
  if 65 ≤ n && n ≤ 90 then Char.ofNat (n + 32)
  else if 192 ≤ n && n ≤ 222 && n != 215 then Char.ofNat (n + 32)
  else c

/-- Python str.lower. -/
def pyLowerStr (s : String) : String := String.mk (s.data.map pyLowerChar)

/-- Python str.strip on a character list: drop whitespace from both ends. -/
def stripList (l : List Char) : List Char :=
  (((l.dropWhile pyIsSpace).reverse).dropWhile pyIsSpace).reverse

/-- Does the needle occur at the head of the haystack? -/
def startsWithList : List Char → List Char → Bool
  | [], _ => true
  | _ :: _, [] => false
  | n :: ns, h :: hs => n == h && startsWithList ns hs

/-- Substring occurrence on character lists. -/
def containsSub (needle : List Char) : List Char → Bool
  | [] => needle.isEmpty
  | c :: hs => startsWithList needle (c :: hs) || containsSub needle hs

/-- Python membership test: needle in hay. -/
def strContains (hay needle : String) : Bool := containsSub needle.data hay.data

/-! ## Dates (datetime.date values flowing into the hash functions) -/

/-- A calendar date as carried by the source records. -/
structure PDate where
  year : Nat
  month : Nat
  day : Nat
deriving DecidableEq, Repr

/-- Zero-padded decimal rendering, w digits wide. -/
def padNat (w n : Nat) : String :=
  let s := toString n
  String.mk (List.replicate (w - s.length) '0' ++ s.data)

/-- strftime("%Y-%m-%d"), the ISO rendering used before hashing. -/
def iso_date (d : PDate) : String :=
  padNat 4 d.year ++ "-" ++ padNat 2 d.month ++ "-" ++ padNat 2 d.day

/-! ## Fingerprint generator (pronote_client.py) -/

/-- subject.strip().lower() / description.strip().lower(): the normalized
form of a hashed field, as a character list. -/
def normalizeField (s : String) : List Char :=
  (stripList s.data).map pyLowerChar

/-- The pre-digest content string of _generate_content_hash:
normalized_subject | iso date | normalized_description. -/
def hashInputChars (subject : String) (due_date : PDate) (description : String) :
    List Char :=
  normalizeField subject ++ ('|' :: (iso_date due_date).data) ++
    ('|' :: normalizeField description)

/-- _generate_content_hash from pronote_client.py. -/
def generate_content_hash (subject : String) (due_date : PDate)
    (description : String) : String :=
  sha256hex (hashInputChars subject due_date description)

/-- The pre-digest content string of _generate_exam_content_hash:
exam | normalized_subject | iso date | normalized_description | source_type. -/
def examHashInputChars (subject : String) (exam_date : PDate)
    (description source_type : String) : List Char :=
  "exam|".data ++ normalizeField subject ++ ('|' :: (iso_date exam_date).data) ++
    ('|' :: normalizeField description) ++ ('|' :: source_type.data)

/-- _generate_exam_content_hash from pronote_client.py. -/
def generate_exam_content_hash (subject : String) (exam_date : PDate)
    (description source_type : String) : String :=
  sha256hex (examHashInputChars subject exam_date description source_type)

/-- _generate_reminder_hash from calendar_client.py:
sha256 of "reminder|base_hash|days_before". -/
def generate_reminder_hash (base_hash : String) (days_before : Nat) : String :=
  sha256hex ("reminder|" ++ base_hash ++ "|" ++ toString days_before).data

/-! ## Assignment-type classifier (_determine_assignment_type) -/

/-- The test/exam keyword list, byte-for-byte as in pronote_client.py
(the source file literally contains the mojibake characters). -/
def test_keywords : List String :=
  ["contr√¥le", "devoir surveill√©", "examen", "test",
   "√©valuation", "ds", "dm",
   "interro", "interrogation", "bac", "partiel", "quiz", "brevet",
   "r√©viser pour", "reviser pour", "pr√©parer pour",
   "preparer pour",
   "evaluation de", "√©valuation de", "test de", "controle de",
   "contr√¥le de"]

/-- The administrative/non-test keyword list from pronote_client.py. -/
def non_test_keywords : List String :=
  ["form", "formulaire", "complete this form", "survey", "vote", "registration",
   "bring", "apporter", "rendre", "submit", "turn in", "due before midnight",
   "tattoo", "art show", "favorite piece", "please complete this form"]

/-- The homework-indicator keyword list from pronote_client.py. -/
def homework_keywords : List String :=
  ["exercice", "devoir maison", "homework", "travail"]

/-- _determine_assignment_type from pronote_client.py: the non-test
override is checked first, then test keywords, then homework indicators,
then the homework default.  The raw record argument of the Python method is
unused by its body, so it is not a parameter here. -/
def determine_assignment_type (description : String) : String :=
  let description_lower := pyLowerStr description
  if non_test_keywords.any (fun k => strContains description_lower k) then
    "homework"
  else if test_keywords.any (fun k => strContains description_lower k) then
    "test"
  else if homework_keywords.any (fun k => strContains description_lower k) then
    "homework"
  else
    "homework"

/-! ## Data model for the sync orchestrator

Dates are modelled as integer day numbers (the orchestrator only ever
compares dates and subtracts whole days).  Display-only payload that no
claim observes (event descriptions, colors, popup reminders, time of day,
the static created_by / sync_version markers) is not tracked. -/

/-- A standardized homework record as produced by _standardize_homework.
The content_hash field is an Option because lambda_handler reads it with
dict.get, treating an absent or empty hash as unprocessable. -/
structure Homework where
  subject : String
  description : String
  detailed_description : String
  due_date : Int
  assignment_type : String
  content_hash : Option String
deriving DecidableEq, Repr

/-- A standardized exam record as produced by _standardize_evaluation or
get_test_events_from_homework. -/
structure Exam where
  subject : String
  description : String
  detailed_description : String
  exam_date : Int
  teacher : Option String
  coefficient : Option String
  data_source : String
  content_hash : Option String
deriving DecidableEq, Repr

/-- A Google Calendar event as this system creates it: the summary plus the
private extendedProperties the adapter writes (source, pronote_hash,
assignment_type, and for reminders days_before / parent_exam_hash). -/
structure GEvent where
  id : Nat
  summary : String
  startDay : Int
  source : String
  pronote_hash : String
  assignment_type : String
  parent_exam_hash : Option String
  days_before : Option Nat
deriving DecidableEq, Repr

/-- The destination calendar: its events in insertion order plus a counter
supplying fresh event ids. -/
structure CalState where
  events : List GEvent
  nextId : Nat
deriving DecidableEq, Repr

/-- The configuration flags lambda_handler consults (config.py). -/
structure Config where
  dry_run : Bool := false
  exam_sync_enabled : Bool := true
  study_reminders_enabled : Bool := true
deriving DecidableEq, Repr

/-- Fault injected into the adapter calls of one loop iteration, modelling
the exception behavior of calendar_client.py: searchHttp is an HttpError
caught inside event_exists_by_hash (which then returns None); searchRaise,
createRaise and updateRaise are authentication errors that escape the
adapter into the per-item loop body; createFail / updateFail are API
errors caught inside create_event / update_event (returning None / False). -/
inductive Fault where
  | ok
  | searchHttp
  | searchRaise
  | createFail
  | createRaise
  | updateFail
  | updateRaise
deriving DecidableEq, Repr

/-- An adapter call that reached the Google Calendar API. -/
inductive Call where
  | search (hash : String)
  | create (title hash : String)
  | createExam (title hash : String)
  | createReminder (hash : String)
  | update (event_id : Nat) (title hash : String)
deriving DecidableEq, Repr

/-! ## Destination store adapter (calendar_client.py) -/

/-- The bounded search window of event_exists_by_hash: 90 days back and 90
days ahead of the current date. -/
def inSearchWindow (today : Int) (e : GEvent) : Bool :=
  decide (today - 90 ≤ e.startDay) && decide (e.startDay ≤ today + 90)

/-- event_exists_by_hash: list events inside the window, return the first
whose private properties carry source == "pronote" and a pronote_hash equal
to the queried hash. -/
def event_exists_by_hash (today : Int) (cal : CalState) (content_hash : String) :
    Option GEvent :=
  (cal.events.filter (inSearchWindow today)).find?
    (fun e => e.source == "pronote" && e.pronote_hash == content_hash)

/-- create_event: insert a homework event carrying the content hash in its
private properties; returns the new event id. -/
def create_event (cal : CalState) (title : String) (due_date : Int)
    (content_hash : Option String) (assignment_type : String) : CalState × Nat :=
  let e : GEvent :=
    { id := cal.nextId, summary := title, startDay := due_date,
      source := "pronote", pronote_hash := content_hash.getD "",
      assignment_type := assignment_type,
      parent_exam_hash := none, days_before := none }
  (⟨cal.events ++ [e], cal.nextId + 1⟩, cal.nextId)

/-- create_exam_event: like create_event but the summary gets the
graduation-cap marker and the assignment type is fixed to "exam". -/
def create_exam_event (cal : CalState) (title : String) (exam_date : Int)
    (content_hash : Option String) : CalState × Nat :=
  let e : GEvent :=
    { id := cal.nextId, summary := "🎓 " ++ title, startDay := exam_date,
      source := "pronote", pronote_hash := content_hash.getD "",
      assignment_type := "exam",
      parent_exam_hash := none, days_before := none }
  (⟨cal.events ++ [e], cal.nextId + 1⟩, cal.nextId)

/-- update_event: overwrite the event with the given id in place. -/
def update_event (cal : CalState) (event_id : Nat) (title : String)
    (due_date : Int) (content_hash : Option String) (assignment_type : String) :
    CalState × Bool :=
  (⟨cal.events.map (fun e =>
      if e.id == event_id then
        { e with
          summary := title
          startDay := due_date
          pronote_hash := content_hash.getD ""
          assignment_type := assignment_type }
      else e),
    cal.nextId⟩, true)

/-- The study-reminder title: a distinct wording for the 1-day-before case. -/
def reminder_title (subject : String) (days_before : Nat) : String :=
  if days_before = 1 then "🔔 Final review: " ++ subject ++ " exam tomorrow"
  else "🔔 Study reminder: " ++ subject ++ " exam in " ++
    toString days_before ++ " days"

/-- One study-reminder event, scheduled days_before days ahead of the exam,
carrying its derived hash and the parent-exam back-reference. -/
def mkReminderEvent (id : Nat) (subject content_hash_base : String)
    (exam_date : Int) (days_before : Nat) : GEvent :=
  { id := id, summary := reminder_title subject days_before,
    startDay := exam_date - days_before,
    source := "pronote",
    pronote_hash := generate_reminder_hash content_hash_base days_before,
    assignment_type := "study_reminder",
    parent_exam_hash := some content_hash_base,
    days_before := some days_before }

/-- One iteration of the create_study_reminder_events loop: skip the
reminder individually when its date is already past, otherwise create it. -/
def reminder_step (today : Int) (subject content_hash_base : String)
    (exam_date : Int) (acc : CalState × List GEvent) (days_before : Nat) :
    CalState × List GEvent :=
  let reminder_date : Int := exam_date - (days_before : Nat)
  if reminder_date < today then acc
  else
    let e := mkReminderEvent acc.1.nextId subject content_hash_base
      exam_date days_before
    (⟨acc.1.events ++ [e], acc.1.nextId + 1⟩, acc.2 ++ [e])

/-- create_study_reminder_events: for days_before in 1..7, skip the
reminder individually when its date is already past, otherwise create it.
Returns the new calendar plus the created events (the caller only counts
them).  The exam title flows only into the untracked event description. -/
def create_study_reminder_events (today : Int) (_exam_title : String)
    (exam_date : Int) (subject content_hash_base : String) (cal : CalState) :
    CalState × List GEvent :=
  (List.range' 1 7).foldl
    (reminder_step today subject content_hash_base exam_date) (cal, [])

/-! ## Sync orchestrator (lambda_function.py) -/

/-- The counters lambda_handler reports: homework events created, updated
and skipped (the exam loop also increments the skipped counter), exam
events created, and study reminders created. -/
structure SyncCounts where
  events_created : Nat := 0
  events_updated : Nat := 0
  events_skipped : Nat := 0
  exam_events_created : Nat := 0
  reminder_events_created : Nat := 0
deriving DecidableEq, Repr

/-- The orchestrator state: the destination calendar, the counters, and the
trace of adapter calls that reached the destination API. -/
structure SyncState where
  cal : CalState
  counts : SyncCounts
  trace : List Call
deriving DecidableEq, Repr

/-- One homework iteration of lambda_handler (lines 90-151): skip silently
when the content hash is absent or empty; otherwise look the hash up and
create, update or skip.  An exception escaping into the loop body (the
raise faults) is caught by the per-item handler: state unchanged apart from
the calls already issued. -/
def process_homework_core (today : Int) (cal : CalState) (counts : SyncCounts)
    (homework : Homework) (fault : Fault) : CalState × SyncCounts × List Call :=
  match homework.content_hash with
  | none => (cal, counts, [])
  | some content_hash =>
    if content_hash = "" then (cal, counts, [])
    else
      let event_title := homework.subject ++ ": " ++ homework.description
      if fault = Fault.searchRaise then (cal, counts, [])
      else
        let existing : Option GEvent :=
          if fault = Fault.searchHttp then none
          else event_exists_by_hash today cal content_hash
        match existing with
        | some existing_event =>
          if existing_event.summary ≠ event_title then
            if fault = Fault.updateRaise then
              (cal, counts, [Call.search content_hash])
            else if fault = Fault.updateFail then
              (cal, counts,
               [Call.search content_hash,
                Call.update existing_event.id event_title content_hash])
            else
              let r := update_event cal existing_event.id event_title
                homework.due_date (some content_hash) homework.assignment_type
              (r.1,
               { counts with events_updated := counts.events_updated + 1 },
               [Call.search content_hash,
                Call.update existing_event.id event_title content_hash])
          else
            (cal,
             { counts with events_skipped := counts.events_skipped + 1 },
             [Call.search content_hash])
        | none =>
          if fault = Fault.createRaise then
            (cal, counts, [Call.search content_hash])
          else if fault = Fault.createFail then
            (cal, counts,
             [Call.search content_hash, Call.create event_title content_hash])
          else
            let r := create_event cal event_title homework.due_date
              (some content_hash) homework.assignment_type
            (r.1,
             { counts with events_created := counts.events_created + 1 },
             [Call.search content_hash, Call.create event_title content_hash])

/-- The state-level wrapper of one homework iteration: the issued calls are
appended to the run trace. -/
def process_homework (today : Int) (st : SyncState) (homework : Homework)
    (fault : Fault) : SyncState :=
  let r := process_homework_core today st.cal st.counts homework fault
  ⟨r.1, r.2.1, st.trace ++ r.2.2⟩

/-- One exam iteration of lambda_handler (lines 157-212): skip silently
without a hash; create when no event with the hash exists (fanning out to
study reminders when enabled and the exam is in the future); otherwise
count the record as skipped -- the exam path never updates. -/
def process_exam_core (cfg : Config) (today : Int) (cal : CalState)
    (counts : SyncCounts) (exam : Exam) (fault : Fault) :
    CalState × SyncCounts × List Call :=
  match exam.content_hash with
  | none => (cal, counts, [])
  | some content_hash =>
    if content_hash = "" then (cal, counts, [])
    else
      let exam_title := exam.subject ++ ": " ++ exam.description
      if fault = Fault.searchRaise then (cal, counts, [])
      else
        let existing : Option GEvent :=
          if fault = Fault.searchHttp then none
          else event_exists_by_hash today cal content_hash
        match existing with
        | none =>
          if fault = Fault.createRaise then
            (cal, counts, [Call.search content_hash])
          else if fault = Fault.createFail then
            (cal, counts,
             [Call.search content_hash, Call.createExam exam_title content_hash])
          else
            let r := create_exam_event cal exam_title exam.exam_date
              (some content_hash)
            if cfg.study_reminders_enabled && decide (exam.exam_date > today) then
              let r2 := create_study_reminder_events today exam_title
                exam.exam_date exam.subject content_hash r.1
              (r2.1,
               { counts with
                 exam_events_created := counts.exam_events_created + 1
                 reminder_events_created :=
                   counts.reminder_events_created + r2.2.length },
               [Call.search content_hash,
                Call.createExam exam_title content_hash] ++
                 r2.2.map (fun e => Call.createReminder e.pronote_hash))
            else
              (r.1,
               { counts with
                 exam_events_created := counts.exam_events_created + 1 },
               [Call.search content_hash, Call.createExam exam_title content_hash])
        | some _ =>
          (cal,
           { counts with events_skipped := counts.events_skipped + 1 },
           [Call.search content_hash])

/-- The state-level wrapper of one exam iteration. -/
def process_exam (cfg : Config) (today : Int) (st : SyncState) (exam : Exam)
    (fault : Fault) : SyncState :=
  let r := process_exam_core cfg today st.cal st.counts exam fault
  ⟨r.1, r.2.1, st.trace ++ r.2.2⟩

/-- The homework loop of lambda_handler. -/
def run_homework_loop (today : Int) (items : List (Homework × Fault))
    (st : SyncState) : SyncState :=
  items.foldl (fun s p => process_homework today s p.1 p.2) st

/-- The exam loop of lambda_handler. -/
def run_exam_loop (cfg : Config) (today : Int) (items : List (Exam × Fault))
    (st : SyncState) : SyncState :=
  items.foldl (fun s p => process_exam cfg today s p.1 p.2) st

/-- lambda_handler, from the point where the fetched record lists are in
hand: run the homework loop, then -- only when exam sync is enabled and the
exam list is nonempty -- the exam loop.  The dry_run flag is a field of the
configuration, mirroring that lambda_handler reads config.dry_run solely to
echo it in the response body. -/
def lambda_handler (cfg : Config) (today : Int)
    (homework_list : List (Homework × Fault)) (exams_list : List (Exam × Fault))
    (cal0 : CalState) : SyncState :=
  let st1 := run_homework_loop today homework_list ⟨cal0, {}, []⟩
  if cfg.exam_sync_enabled && !exams_list.isEmpty then
    run_exam_loop cfg today exams_list st1
  else st1

/-! ## Exam-record merge (get_exams, pronote_client.py lines 276-289) -/

/-- Is the record kept when inserted into the unique_exams accumulator?
Mirrors: if content_hash and content_hash not in unique_exams. -/
def truthyHash : Option String → Bool
  | none => false
  | some s => !(s == "")

/-- The deduplication pass of get_exams: fold the combined list into a
hash-keyed accumulator, keeping the first record seen for each hash and
dropping records without a truthy hash. -/
def dedupe_exams_aux (acc : List Exam) : List Exam → List Exam
  | [] => acc
  | ex :: rest =>
    if truthyHash ex.content_hash &&
        !(acc.any (fun e => e.content_hash == ex.content_hash)) then
      dedupe_exams_aux (acc ++ [ex]) rest
    else
      dedupe_exams_aux acc rest

/-- get_exams after fetching: evaluation-derived records first, then the
test records extracted from homework, deduplicated by content hash with
first-seen-wins (Python dicts preserve insertion order, so the list of
values is in first-insertion order). -/
def combine_exams (exams_list test_events_from_homework : List Exam) :
    List Exam :=
  dedupe_exams_aux [] (exams_list ++ test_events_from_homework)

/-! ## Derived definitions used by the statements -/

/-- The content hash of a homework record, defaulting like dict.get. -/
def hwHash (hw : Homework) : String := hw.content_hash.getD ""

/-- The content hash of an exam record. -/
def exHash (ex : Exam) : String := ex.content_hash.getD ""

/-- The event title lambda_handler builds: subject, colon, description. -/
def hwTitle (hw : Homework) : String := hw.subject ++ ": " ++ hw.description

/-- The exam title lambda_handler builds. -/
def exTitle (ex : Exam) : String := ex.subject ++ ": " ++ ex.description

/-- The predicate event_exists_by_hash effectively tests on each event:
inside the search window, owned by this system, and carrying the queried
hash. -/
def hashMatch (today : Int) (content_hash : String) (e : GEvent) : Bool :=
  inSearchWindow today e &&
    (e.source == "pronote" && e.pronote_hash == content_hash)

/-! ## Theorems -/

theorem sha256hex_empty_vector : sha256hex [] =
    "e3b0c44298fc1c149afbf4c8996fb92427ae41e4649b934ca495991b7852b855" := by
  decide

theorem sha256hex_abc_vector : sha256hex ['a', 'b', 'c'] =
    "ba7816bf8f01cfea414140de5dae2223b00361a396177a9cb410ff61f20015ad" := by
  decide

theorem event_exists_by_hash_eq_find? (today : Int) (cal : CalState)
    (content_hash : String) :
    event_exists_by_hash today cal content_hash =
      cal.events.find? (hashMatch today content_hash) := by
  unfold event_exists_by_hash
  induction cal.events with
  | nil => rfl
  | cons e t ih =>
    simp only [List.filter_cons]
    cases hwin : inSearchWindow today e with
    | false =>
      have : hashMatch today content_hash e = false := by
        simp [hashMatch, hwin]
      simp [List.find?_cons, this, ih]
    | true =>
      cases hp : (e.source == "pronote" && e.pronote_hash == content_hash) with
      | false =>
        have : hashMatch today content_hash e = false := by
          simp [hashMatch, hwin, hp]
        simp [List.find?_cons, this, hp, ih]
      | true =>
        have : hashMatch today content_hash e = true := by
          simp [hashMatch, hwin]
          simpa using hp
        simp [List.find?_cons, this, hp, hwin]

theorem hashMatch_iff (today : Int) (content_hash : String) (e : GEvent) :
    hashMatch today content_hash e = true ↔
      inSearchWindow today e = true ∧ e.source = "pronote" ∧
        e.pronote_hash = content_hash := by
  simp [hashMatch, and_assoc]

theorem event_exists_some_props (today : Int) (cal : CalState)
    (content_hash : String) (e : GEvent)
    (h : event_exists_by_hash today cal content_hash = some e) :
    e ∈ cal.events ∧ inSearchWindow today e = true ∧ e.source = "pronote" ∧
      e.pronote_hash = content_hash := by
  rw [event_exists_by_hash_eq_find?] at h
  refine ⟨List.mem_of_find?_eq_some h, ?_⟩
  exact (hashMatch_iff today content_hash e).mp (List.find?_some h)

theorem event_exists_append (today : Int) (l₁ l₂ : List GEvent) (n : Nat)
    (content_hash : String) :
    event_exists_by_hash today ⟨l₁ ++ l₂, n⟩ content_hash =
      ((event_exists_by_hash today ⟨l₁, n⟩ content_hash).or
        (event_exists_by_hash today ⟨l₂, n⟩ content_hash)) := by
  simp [event_exists_by_hash_eq_find?, List.find?_append]

theorem event_exists_none_iff (today : Int) (cal : CalState)
    (content_hash : String) :
    event_exists_by_hash today cal content_hash = none ↔
      ∀ e ∈ cal.events, ¬(hashMatch today content_hash e = true) := by
  rw [event_exists_by_hash_eq_find?]
  exact List.find?_eq_none

/-- C5: a description containing any administrative/non-test keyword
classifies as homework, regardless of any test keyword also present: the
negative override is checked before the test-keyword scan. -/
theorem claim_c5_admin_override (description : String)
    (h : ∃ kw, kw ∈ non_test_keywords ∧
      strContains (pyLowerStr description) kw = true) :
    determine_assignment_type description = "homework" := by
  obtain ⟨kw, hkw, hc⟩ := h
  have hany :
      (non_test_keywords.any fun k => strContains (pyLowerStr description) k) =
        true :=
    List.any_eq_true.mpr ⟨kw, hkw, hc⟩
  simp [determine_assignment_type, hany]

/-- Witness for C5 at the example of the claim: the description carries the
administrative keyword "form" and also the test keyword "test", and the
classifier returns homework. -/
theorem claim_c5_witness :
    determine_assignment_type
        "Please complete this form before the test review session" =
      "homework" ∧
    strContains
        (pyLowerStr "Please complete this form before the test review session")
        "form" = true ∧
    strContains
        (pyLowerStr "Please complete this form before the test review session")
        "test" = true :=
  ⟨claim_c5_admin_override _ ⟨"form", by decide, by decide⟩, by decide, by decide⟩

/-- C8: a record whose content hash is absent or empty is skipped outright:
the loop iteration leaves the calendar, every counter and the call trace
unchanged, so no create, update or search call is issued for it. -/
theorem claim_c8_missing_hash (cfg : Config) (today : Int) (st : SyncState)
    (hw : Homework) (ex : Exam) (fhw fex : Fault)
    (h1 : truthyHash hw.content_hash = false)
    (h2 : truthyHash ex.content_hash = false) :
    process_homework today st hw fhw = st ∧ process_exam cfg today st ex fex = st := by
  constructor
  · cases hh : hw.content_hash with
    | none => simp [process_homework, process_homework_core, hh]
    | some s =>
      have hs : s = "" := by simpa [truthyHash, hh] using h1
      subst hs
      simp [process_homework, process_homework_core, hh]
  · cases hh : ex.content_hash with
    | none => simp [process_exam, process_exam_core, hh]
    | some s =>
      have hs : s = "" := by simpa [truthyHash, hh] using h2
      subst hs
      simp [process_exam, process_exam_core, hh]

/-- Witness for C8: one homework record with no hash and one exam record
with an empty hash pass through a run untouched. -/
theorem claim_c8_witness :
    process_homework 0 ⟨⟨[], 0⟩, {}, []⟩
        ⟨"Math", "exercise", "", 0, "homework", none⟩ Fault.ok =
      ⟨⟨[], 0⟩, {}, []⟩ ∧
    process_exam {} 0 ⟨⟨[], 0⟩, {}, []⟩
        ⟨"Math", "algebra", "", 0, none, none, "evaluation", some ""⟩ Fault.ok =
      ⟨⟨[], 0⟩, {}, []⟩ :=
  claim_c8_missing_hash {} 0 ⟨⟨[], 0⟩, {}, []⟩
    ⟨"Math", "exercise", "", 0, "homework", none⟩
    ⟨"Math", "algebra", "", 0, none, none, "evaluation", some ""⟩
    Fault.ok Fault.ok (by decide) (by decide)

/-- C3: the dry_run flag is never consulted by the orchestrator -- two runs
differing only in dry_run are literally identical -- and with dry_run set a
fresh homework record still sends a live create call to the destination
adapter, contrary to the documented dry-run contract of config.py. -/
theorem claim_c3_dry_run_not_consulted :
    (∀ (d1 d2 e s : Bool) (today : Int) (hws : List (Homework × Fault))
        (exs : List (Exam × Fault)) (cal0 : CalState),
      lambda_handler ⟨d1, e, s⟩ today hws exs cal0 =
        lambda_handler ⟨d2, e, s⟩ today hws exs cal0) ∧
    (Config.dry_run ⟨true, true, true⟩ = true ∧
      (lambda_handler ⟨true, true, true⟩ 0
          [(⟨"Math", "exercise", "", 0, "homework", some "h1"⟩, Fault.ok)] []
          ⟨[], 0⟩).trace =
        [Call.search "h1", Call.create "Math: exercise" "h1"]) := by
  refine ⟨fun d1 d2 e s today hws exs cal0 => rfl, rfl, by decide⟩

theorem dedupe_exams_aux_spec (rest : List Exam) :
    ∀ (processed acc : List Exam),
    (∀ e ∈ acc, truthyHash e.content_hash = true ∧
      processed.find? (fun x => x.content_hash == e.content_hash) = some e) →
    (∀ x ∈ processed, truthyHash x.content_hash = true →
      ∃ a ∈ acc, a.content_hash = x.content_hash) →
    ((acc.map (fun e => e.content_hash)).Pairwise (· ≠ ·)) →
    ((dedupe_exams_aux acc rest).map (fun e => e.content_hash)).Pairwise (· ≠ ·) ∧
    ∀ e ∈ dedupe_exams_aux acc rest,
      truthyHash e.content_hash = true ∧
      (processed ++ rest).find? (fun x => x.content_hash == e.content_hash) =
        some e := by
  induction rest with
  | nil =>
    intro processed acc hacc _ hdist
    refine ⟨by simpa [dedupe_exams_aux] using hdist, ?_⟩
    intro e he
    simp only [dedupe_exams_aux] at he
    exact ⟨(hacc e he).1, by simpa using (hacc e he).2⟩
  | cons x xs ih =>
    intro processed acc hacc hseen hdist
    by_cases hcond : (truthyHash x.content_hash &&
        !(acc.any (fun e => e.content_hash == x.content_hash))) = true
    · -- x is new: inserted into the accumulator
      have hxt : truthyHash x.content_hash = true := by
        simpa using (Bool.and_elim_left hcond)
      have hxnew : ∀ a ∈ acc, a.content_hash ≠ x.content_hash := by
        have := Bool.and_elim_right hcond
        simp only [Bool.not_eq_true'] at this
        intro a ha heq
        have := List.any_eq_false.mp this a ha
        simp [heq] at this
      have hfound_none :
          processed.find? (fun y => y.content_hash == x.content_hash) = none := by
        apply List.find?_eq_none.mpr
        intro y hy hby
        have hyx : y.content_hash = x.content_hash := by simpa using hby
        have hyt : truthyHash y.content_hash = true := by rw [hyx]; exact hxt
        obtain ⟨a, ha, hah⟩ := hseen y hy hyt
        exact hxnew a ha (hah.trans hyx)
      have step :
          dedupe_exams_aux acc (x :: xs) = dedupe_exams_aux (acc ++ [x]) xs := by
        simp [dedupe_exams_aux, hcond]
      rw [step]
      have hmain := ih (processed ++ [x]) (acc ++ [x]) ?hacc ?hseen ?hdist
      case hacc =>
        intro e he
        rcases List.mem_append.mp he with he | he
        · refine ⟨(hacc e he).1, ?_⟩
          rw [List.find?_append, (hacc e he).2]
          rfl
        · have hex : e = x := by simpa using he
          subst hex
          refine ⟨hxt, ?_⟩
          rw [List.find?_append, hfound_none]
          simp
      case hseen =>
        intro y hy hyt
        rcases List.mem_append.mp hy with hy | hy
        · obtain ⟨a, ha, hah⟩ := hseen y hy hyt
          exact ⟨a, List.mem_append.mpr (Or.inl ha), hah⟩
        · have hex : y = x := by simpa using hy
          subst hex
          exact ⟨y, List.mem_append.mpr (Or.inr (by simp)), rfl⟩
      case hdist =>
        rw [List.map_append, List.pairwise_append]
        refine ⟨hdist, by simp, ?_⟩
        intro a ha b hb
        simp only [List.map_cons, List.map_nil, List.mem_singleton] at hb
        subst hb
        obtain ⟨a0, ha0, rfl⟩ := List.mem_map.mp ha
        exact hxnew a0 ha0
      refine ⟨hmain.1, ?_⟩
      intro e he
      refine ⟨(hmain.2 e he).1, ?_⟩
      have := (hmain.2 e he).2
      rwa [List.append_assoc, List.singleton_append] at this
    · -- x dropped: either no truthy hash, or its hash was already seen
      have step : dedupe_exams_aux acc (x :: xs) = dedupe_exams_aux acc xs := by
        simp only [dedupe_exams_aux]
        rw [if_neg (by simpa using hcond)]
      rw [step]
      have hmain := ih (processed ++ [x]) acc ?hacc2 ?hseen2 hdist
      case hacc2 =>
        intro e he
        refine ⟨(hacc e he).1, ?_⟩
        rw [List.find?_append, (hacc e he).2]
        rfl
      case hseen2 =>
        intro y hy hyt
        rcases List.mem_append.mp hy with hy | hy
        · exact hseen y hy hyt
        · have hex : y = x := by simpa using hy
          subst hex
          have hxt2 : truthyHash y.content_hash = true := hyt
          have hany : acc.any (fun e => e.content_hash == y.content_hash) = true := by
            by_contra hno
            have hanyf : (acc.any fun e => e.content_hash == y.content_hash) = false := by
              revert hno
              cases acc.any fun e => e.content_hash == y.content_hash <;> simp
            exact hcond (by simp [hxt2, hanyf])
          obtain ⟨a, ha, hab⟩ := List.any_eq_true.mp hany
          exact ⟨a, ha, by simpa using hab⟩
      refine ⟨hmain.1, ?_⟩
      intro e he
      refine ⟨(hmain.2 e he).1, ?_⟩
      have := (hmain.2 e he).2
      rwa [List.append_assoc, List.singleton_append] at this

/-- C9: the combined exam list returned by get_exams holds at most one
record per content hash -- the kept hashes are pairwise distinct -- and
every kept record is exactly the first record carrying its hash in the
concatenation evaluation-derived records then homework-derived test
records, so for a duplicated hash the evaluation-derived record wins;
records without a truthy hash are dropped. -/
theorem claim_c9_exam_dedup (exams_list test_events_from_homework : List Exam) :
    (((combine_exams exams_list test_events_from_homework).map
        (fun e => e.content_hash)).Pairwise (· ≠ ·)) ∧
    ∀ e ∈ combine_exams exams_list test_events_from_homework,
      truthyHash e.content_hash = true ∧
      (exams_list ++ test_events_from_homework).find?
        (fun x => x.content_hash == e.content_hash) = some e := by
  have h := dedupe_exams_aux_spec (exams_list ++ test_events_from_homework)
    [] [] (by simp) (by simp) (by simp)
  simpa [combine_exams] using h

/-- Witness for C9: an evaluation record and a homework-derived test record
sharing one content hash collapse to the evaluation record alone, and the
kept record satisfies the first-seen characterization. -/
theorem claim_c9_witness :
    combine_exams
        [⟨"Math", "algebra", "", 10, some "T", some "2", "evaluation", some "h"⟩]
        [⟨"Math", "algebra v2", "", 10, none, none, "homework_test", some "h"⟩] =
      [⟨"Math", "algebra", "", 10, some "T", some "2", "evaluation", some "h"⟩] ∧
    (truthyHash (some "h") = true ∧
      ([⟨"Math", "algebra", "", 10, some "T", some "2", "evaluation", some "h"⟩,
        ⟨"Math", "algebra v2", "", 10, none, none, "homework_test", some "h"⟩]
          : List Exam).find?
        (fun x => x.content_hash == some "h") =
        some ⟨"Math", "algebra", "", 10, some "T", some "2", "evaluation",
          some "h"⟩) := by
  refine ⟨by decide, ?_⟩
  have h := (claim_c9_exam_dedup
    [⟨"Math", "algebra", "", 10, some "T", some "2", "evaluation", some "h"⟩]
    [⟨"Math", "algebra v2", "", 10, none, none, "homework_test", some "h"⟩]).2
    ⟨"Math", "algebra", "", 10, some "T", some "2", "evaluation", some "h"⟩
    (by decide)
  simpa using h

theorem update_call_core_origin (today : Int) (cal : CalState)
    (counts : SyncCounts) (hw : Homework) (fault : Fault) (id : Nat)
    (t h2 : String)
    (hmem : Call.update id t h2 ∈
      (process_homework_core today cal counts hw fault).2.2) :
    ∃ e2, event_exists_by_hash today cal h2 = some e2 ∧ e2.id = id := by
  cases hch : hw.content_hash with
  | none => simp [process_homework_core, hch] at hmem
  | some ch =>
    by_cases hemp : ch = ""
    · simp [process_homework_core, hch, hemp] at hmem
    · cases fault with
      | searchRaise => simp [process_homework_core, hch, hemp] at hmem
      | searchHttp => simp [process_homework_core, hch, hemp] at hmem
      | ok =>
        cases hex : event_exists_by_hash today cal ch with
        | none => simp [process_homework_core, hch, hemp, hex] at hmem
        | some ev =>
          by_cases hsum : ev.summary = hw.subject ++ ": " ++ hw.description
          · simp [process_homework_core, hch, hemp, hex, hsum] at hmem
          · simp [process_homework_core, hch, hemp, hex, hsum] at hmem
            exact ⟨ev, by rw [hmem.2.2]; exact hex, hmem.1.symm⟩
      | createFail =>
        cases hex : event_exists_by_hash today cal ch with
        | none => simp [process_homework_core, hch, hemp, hex] at hmem
        | some ev =>
          by_cases hsum : ev.summary = hw.subject ++ ": " ++ hw.description
          · simp [process_homework_core, hch, hemp, hex, hsum] at hmem
          · simp [process_homework_core, hch, hemp, hex, hsum] at hmem
            exact ⟨ev, by rw [hmem.2.2]; exact hex, hmem.1.symm⟩
      | createRaise =>
        cases hex : event_exists_by_hash today cal ch with
        | none => simp [process_homework_core, hch, hemp, hex] at hmem
        | some ev =>
          by_cases hsum : ev.summary = hw.subject ++ ": " ++ hw.description
          · simp [process_homework_core, hch, hemp, hex, hsum] at hmem
          · simp [process_homework_core, hch, hemp, hex, hsum] at hmem
            exact ⟨ev, by rw [hmem.2.2]; exact hex, hmem.1.symm⟩
      | updateFail =>
        cases hex : event_exists_by_hash today cal ch with
        | none => simp [process_homework_core, hch, hemp, hex] at hmem
        | some ev =>
          by_cases hsum : ev.summary = hw.subject ++ ": " ++ hw.description
          · simp [process_homework_core, hch, hemp, hex, hsum] at hmem
          · simp [process_homework_core, hch, hemp, hex, hsum] at hmem
            exact ⟨ev, by rw [hmem.2.2]; exact hex, hmem.1.symm⟩
      | updateRaise =>
        cases hex : event_exists_by_hash today cal ch with
        | none => simp [process_homework_core, hch, hemp, hex] at hmem
        | some ev =>
          by_cases hsum : ev.summary = hw.subject ++ ": " ++ hw.description
          · simp [process_homework_core, hch, hemp, hex, hsum] at hmem
          · simp [process_homework_core, hch, hemp, hex, hsum] at hmem

/-- C10: the hash lookup returns an event only when its private annotations
carry source equal to "pronote" and a pronote_hash exactly equal to the
queried hash (and the event lies in the search window); consequently every
update call the homework loop issues targets an event that carries the
owner tag and the queried hash -- never a foreign calendar event. -/
theorem claim_c10_owner_tag (today : Int) (cal : CalState)
    (content_hash : String) (e : GEvent)
    (hfind : event_exists_by_hash today cal content_hash = some e) :
    (e.source = "pronote" ∧ e.pronote_hash = content_hash ∧ e ∈ cal.events) ∧
    (∀ (st : SyncState) (hw : Homework) (fault : Fault) (id : Nat)
        (t h2 : String),
      Call.update id t h2 ∈ (process_homework today st hw fault).trace →
      Call.update id t h2 ∈ st.trace ∨
        ∃ e2, e2 ∈ st.cal.events ∧ e2.id = id ∧ e2.source = "pronote" ∧
          e2.pronote_hash = h2) := by
  constructor
  · have h := event_exists_some_props today cal content_hash e hfind
    exact ⟨h.2.2.1, h.2.2.2, h.1⟩
  · intro st hw fault id t h2 hmem
    simp only [process_homework, List.mem_append] at hmem
    rcases hmem with hmem | hmem
    · exact Or.inl hmem
    · obtain ⟨e2, hfind2, hid⟩ :=
        update_call_core_origin today st.cal st.counts hw fault id t h2 hmem
      have hp := event_exists_some_props today st.cal h2 e2 hfind2
      exact Or.inr ⟨e2, hp.1, hid, hp.2.2.1, hp.2.2.2⟩

/-- Witness for C10: a lookup against a calendar holding one owned event
returns it, and the conclusions hold at that instance. -/
theorem claim_c10_witness :
    ((⟨3, "Math: exercise", 5, "pronote", "h1", "homework", none, none⟩
        : GEvent).source = "pronote" ∧
      (⟨3, "Math: exercise", 5, "pronote", "h1", "homework", none, none⟩
        : GEvent).pronote_hash = "h1" ∧
      (⟨3, "Math: exercise", 5, "pronote", "h1", "homework", none, none⟩
          : GEvent) ∈
        ([⟨7, "Foreign", 5, "", "h1", "homework", none, none⟩,
          ⟨3, "Math: exercise", 5, "pronote", "h1", "homework", none, none⟩]
          : List GEvent)) ∧
    (∀ (st : SyncState) (hw : Homework) (fault : Fault) (id : Nat)
        (t h2 : String),
      Call.update id t h2 ∈ (process_homework 0 st hw fault).trace →
      Call.update id t h2 ∈ st.trace ∨
        ∃ e2, e2 ∈ st.cal.events ∧ e2.id = id ∧ e2.source = "pronote" ∧
          e2.pronote_hash = h2) :=
  claim_c10_owner_tag 0
    ⟨[⟨7, "Foreign", 5, "", "h1", "homework", none, none⟩,
      ⟨3, "Math: exercise", 5, "pronote", "h1", "homework", none, none⟩], 8⟩
    "h1" ⟨3, "Math: exercise", 5, "pronote", "h1", "homework", none, none⟩
    (by decide)

/-- C2 (amended): the per-assignment decision of the homework loop follows
the three-state machine -- hash found with differing stored title gives
UPDATE, hash found with identical title gives SKIP, hash not found gives
CREATE -- while the exam loop deviates from the spec: an exam whose hash is
found is always counted skipped, never updated, even when the stored title
differs. -/
theorem claim_c2_decision (cfg : Config) (today : Int) (st : SyncState)
    (hw : Homework) (ex : Exam) (content_hash : String)
    (hh : hw.content_hash = some content_hash)
    (hx : ex.content_hash = some content_hash)
    (hne : content_hash ≠ "") :
    (∀ e, event_exists_by_hash today st.cal content_hash = some e →
      e.summary ≠ hwTitle hw →
      (process_homework today st hw Fault.ok).counts =
        { st.counts with events_updated := st.counts.events_updated + 1 } ∧
      (process_homework today st hw Fault.ok).trace =
        st.trace ++ [Call.search content_hash,
          Call.update e.id (hwTitle hw) content_hash]) ∧
    (∀ e, event_exists_by_hash today st.cal content_hash = some e →
      e.summary = hwTitle hw →
      process_homework today st hw Fault.ok =
        { st with
          counts := { st.counts with
            events_skipped := st.counts.events_skipped + 1 }
          trace := st.trace ++ [Call.search content_hash] }) ∧
    (event_exists_by_hash today st.cal content_hash = none →
      (process_homework today st hw Fault.ok).counts =
        { st.counts with events_created := st.counts.events_created + 1 } ∧
      (process_homework today st hw Fault.ok).trace =
        st.trace ++ [Call.search content_hash,
          Call.create (hwTitle hw) content_hash]) ∧
    (∀ e, event_exists_by_hash today st.cal content_hash = some e →
      process_exam cfg today st ex Fault.ok =
        { st with
          counts := { st.counts with
            events_skipped := st.counts.events_skipped + 1 }
          trace := st.trace ++ [Call.search content_hash] }) := by
  refine ⟨?_, ?_, ?_, ?_⟩
  · intro e hfind hsum
    simp only [hwTitle] at hsum ⊢
    constructor <;>
      simp [process_homework, process_homework_core, hh, hne, hfind, hsum]
  · intro e hfind hsum
    simp only [hwTitle] at hsum
    simp [process_homework, process_homework_core, hh, hne, hfind, hsum]
  · intro hfind
    constructor <;>
      simp [process_homework, process_homework_core, hh, hne, hfind, hwTitle]
  · intro e hfind
    simp [process_exam, process_exam_core, hx, hne, hfind]

/-- Witness for C2: the three homework branches and the exam branch at a
concrete calendar holding one stale and one current event. -/
theorem claim_c2_witness :
    ((process_homework 0
        ⟨⟨[⟨0, "Math: old", 5, "pronote", "h1", "homework", none, none⟩], 1⟩,
          {}, []⟩
        ⟨"Math", "new", "", 5, "homework", some "h1"⟩ Fault.ok).counts =
      { events_updated := 1 } ∧
     (process_homework 0
        ⟨⟨[⟨0, "Math: old", 5, "pronote", "h1", "homework", none, none⟩], 1⟩,
          {}, []⟩
        ⟨"Math", "new", "", 5, "homework", some "h1"⟩ Fault.ok).trace =
      [Call.search "h1", Call.update 0 "Math: new" "h1"]) := by
  have h := (claim_c2_decision {} 0
    ⟨⟨[⟨0, "Math: old", 5, "pronote", "h1", "homework", none, none⟩], 1⟩, {}, []⟩
    ⟨"Math", "new", "", 5, "homework", some "h1"⟩
    ⟨"Math", "new", "", 5, none, none, "evaluation", some "h1"⟩
    "h1" rfl rfl (by decide)).1
    ⟨0, "Math: old", 5, "pronote", "h1", "homework", none, none⟩
    (by decide) (by decide)
  simpa [hwTitle] using h

/-- Counterexample for C2 as frozen: an exam record whose hash matches an
existing destination event with a different stored title is skipped, not
updated, so the claimed state machine does not govern exam assignments. -/
theorem claim_c2_counterexample :
    (event_exists_by_hash 0
        ⟨[⟨0, "🎓 Math: old", 5, "pronote", "hx", "exam", none, none⟩], 1⟩
        "hx" =
      some ⟨0, "🎓 Math: old", 5, "pronote", "hx", "exam", none, none⟩) ∧
    ("🎓 Math: old" ≠ exTitle ⟨"Math", "new", "", 5, none, none, "evaluation",
      some "hx"⟩) ∧
    (process_exam {} 0
        ⟨⟨[⟨0, "🎓 Math: old", 5, "pronote", "hx", "exam", none, none⟩], 1⟩,
          {}, []⟩
        ⟨"Math", "new", "", 5, none, none, "evaluation", some "hx"⟩
        Fault.ok).counts.events_updated = 0 ∧
    (process_exam {} 0
        ⟨⟨[⟨0, "🎓 Math: old", 5, "pronote", "hx", "exam", none, none⟩], 1⟩,
          {}, []⟩
        ⟨"Math", "new", "", 5, none, none, "evaluation", some "hx"⟩
        Fault.ok).counts.events_skipped = 1 := by
  refine ⟨by decide, by decide, by decide, by decide⟩

theorem run_homework_loop_trace_irrel (today : Int)
    (ys : List (Homework × Fault)) :
    ∀ (c : CalState) (k : SyncCounts) (t₁ t₂ : List Call),
    (run_homework_loop today ys ⟨c, k, t₁⟩).cal =
      (run_homework_loop today ys ⟨c, k, t₂⟩).cal ∧
    (run_homework_loop today ys ⟨c, k, t₁⟩).counts =
      (run_homework_loop today ys ⟨c, k, t₂⟩).counts := by
  induction ys with
  | nil => intro c k t₁ t₂; exact ⟨rfl, rfl⟩
  | cons p ps ih =>
    intro c k t₁ t₂
    show (run_homework_loop today ps (process_homework today ⟨c, k, t₁⟩ p.1 p.2)).cal = _ ∧ _
    exact ih (process_homework_core today c k p.1 p.2).1
      (process_homework_core today c k p.1 p.2).2.1 _ _

/-- C7 (amended): an exception escaping into the per-item loop body -- an
authentication raise during the search, create or update call of one item
-- is recovered locally: the item changes no counter and no calendar state,
and the loop continues unaffected, so a single bad record never aborts or
alters the rest of the run.  (A search failure handled inside the adapter
is different: it reads as not-found and flows into the CREATE branch; see
the counterexample.) -/
theorem claim_c7_per_item_recovery (today : Int) (st : SyncState)
    (hw : Homework) :
    (process_homework today st hw Fault.searchRaise = st) ∧
    (event_exists_by_hash today st.cal (hwHash hw) = none →
      (process_homework today st hw Fault.createRaise).cal = st.cal ∧
      (process_homework today st hw Fault.createRaise).counts = st.counts) ∧
    (∀ e, event_exists_by_hash today st.cal (hwHash hw) = some e →
      e.summary ≠ hwTitle hw →
      (process_homework today st hw Fault.updateRaise).cal = st.cal ∧
      (process_homework today st hw Fault.updateRaise).counts = st.counts) ∧
    (∀ (xs ys : List (Homework × Fault)) (x : Homework × Fault),
      (process_homework today (run_homework_loop today xs st) x.1 x.2).cal =
        (run_homework_loop today xs st).cal →
      (process_homework today (run_homework_loop today xs st) x.1 x.2).counts =
        (run_homework_loop today xs st).counts →
      (run_homework_loop today (xs ++ x :: ys) st).counts =
        (run_homework_loop today (xs ++ ys) st).counts ∧
      (run_homework_loop today (xs ++ x :: ys) st).cal =
        (run_homework_loop today (xs ++ ys) st).cal) := by
  refine ⟨?_, ?_, ?_, ?_⟩
  · cases hch : hw.content_hash with
    | none => simp [process_homework, process_homework_core, hch]
    | some ch =>
      by_cases hemp : ch = "" <;>
        simp [process_homework, process_homework_core, hch, hemp]
  · intro hnone
    cases hch : hw.content_hash with
    | none => simp [process_homework, process_homework_core, hch]
    | some ch =>
      by_cases hemp : ch = ""
      · simp [process_homework, process_homework_core, hch, hemp]
      · have hn : event_exists_by_hash today st.cal ch = none := by
          simpa [hwHash, hch] using hnone
        simp [process_homework, process_homework_core, hch, hemp, hn]
  · intro e hfind hsum
    cases hch : hw.content_hash with
    | none => simp [process_homework, process_homework_core, hch]
    | some ch =>
      by_cases hemp : ch = ""
      · simp [process_homework, process_homework_core, hch, hemp]
      · have hf : event_exists_by_hash today st.cal ch = some e := by
          simpa [hwHash, hch] using hfind
        simp only [hwTitle] at hsum
        simp [process_homework, process_homework_core, hch, hemp, hf, hsum]
  · intro xs ys x hcal hcounts
    have hsplit1 : run_homework_loop today (xs ++ x :: ys) st =
        run_homework_loop today ys
          (process_homework today (run_homework_loop today xs st) x.1 x.2) := by
      simp [run_homework_loop, List.foldl_append]
    have hsplit2 : run_homework_loop today (xs ++ ys) st =
        run_homework_loop today ys (run_homework_loop today xs st) := by
      simp [run_homework_loop, List.foldl_append]
    rw [hsplit1, hsplit2]
    set mid := run_homework_loop today xs st with hmid
    have hx : process_homework today mid x.1 x.2 =
        ⟨mid.cal, mid.counts,
          (process_homework today mid x.1 x.2).trace⟩ := by
      cases hp : process_homework today mid x.1 x.2 with
      | mk c k t =>
        have h1 : c = mid.cal := by rw [← hcal, hp]
        have h2 : k = mid.counts := by rw [← hcounts, hp]
        simp [h1, h2, hp]
    rw [hx]
    have hmid_eta : mid = ⟨mid.cal, mid.counts, mid.trace⟩ := rfl
    conv_rhs => rw [hmid_eta]
    have h := run_homework_loop_trace_irrel today ys mid.cal mid.counts
      (process_homework today mid x.1 x.2).trace mid.trace
    exact ⟨h.2, h.1⟩

/-- Witness for C7: a concrete item whose create call raises is caught,
counted nowhere, and removing it from the middle of a run changes nothing. -/
theorem claim_c7_witness :
    ((process_homework 0 ⟨⟨[], 0⟩, {}, []⟩
        ⟨"Math", "exercise", "", 0, "homework", some "h1"⟩
        Fault.createRaise).cal = ⟨[], 0⟩ ∧
     (process_homework 0 ⟨⟨[], 0⟩, {}, []⟩
        ⟨"Math", "exercise", "", 0, "homework", some "h1"⟩
        Fault.createRaise).counts = {}) ∧
    (run_homework_loop 0
        ([(⟨"Sci", "read", "", 1, "homework", some "h2"⟩, Fault.ok)] ++
          (⟨"Math", "exercise", "", 0, "homework", some "h1"⟩,
            Fault.searchRaise) ::
          [(⟨"Hist", "essay", "", 2, "homework", some "h3"⟩, Fault.ok)])
        ⟨⟨[], 0⟩, {}, []⟩).counts =
      (run_homework_loop 0
        ([(⟨"Sci", "read", "", 1, "homework", some "h2"⟩, Fault.ok)] ++
          [(⟨"Hist", "essay", "", 2, "homework", some "h3"⟩, Fault.ok)])
        ⟨⟨[], 0⟩, {}, []⟩).counts := by
  constructor
  · exact (claim_c7_per_item_recovery 0 ⟨⟨[], 0⟩, {}, []⟩
      ⟨"Math", "exercise", "", 0, "homework", some "h1"⟩).2.1 (by decide)
  · exact ((claim_c7_per_item_recovery 0 ⟨⟨[], 0⟩, {}, []⟩
      ⟨"Math", "exercise", "", 0, "homework", some "h1"⟩).2.2.2
      [(⟨"Sci", "read", "", 1, "homework", some "h2"⟩, Fault.ok)]
      [(⟨"Hist", "essay", "", 2, "homework", some "h3"⟩, Fault.ok)]
      (⟨"Math", "exercise", "", 0, "homework", some "h1"⟩, Fault.searchRaise)
      (by decide) (by decide)).1

/-- Counterexample for C7 as frozen: when the search call raises an
HttpError inside the adapter, the adapter reports not-found, the item flows
into the CREATE branch and ends up counted as created -- not as
not-created as the claim states. -/
theorem claim_c7_counterexample :
    (process_homework 0 ⟨⟨[], 0⟩, {}, []⟩
        ⟨"Math", "exercise", "", 0, "homework", some "h1"⟩
        Fault.searchHttp).counts.events_created = 1 ∧
    (process_homework 0 ⟨⟨[], 0⟩, {}, []⟩
        ⟨"Math", "exercise", "", 0, "homework", some "h1"⟩
        Fault.searchHttp).trace =
      [Call.search "h1", Call.create "Math: exercise" "h1"] := by
  exact ⟨by decide, by decide⟩

theorem reminder_fold_create (today exam_date : Int) (subject base : String) :
    ∀ (ds : List Nat) (cal : CalState) (acc2 : List GEvent),
    (∀ d ∈ ds, ¬(exam_date - (d : Int) < today)) →
    ∃ evs,
      ds.foldl (reminder_step today subject base exam_date) (cal, acc2) =
        (⟨cal.events ++ evs, cal.nextId + ds.length⟩, acc2 ++ evs) ∧
      evs.map (fun e => e.days_before) = ds.map some ∧
      evs.map (fun e => e.pronote_hash) = ds.map (generate_reminder_hash base) ∧
      (∀ e ∈ evs, e.parent_exam_hash = some base) := by
  intro ds
  induction ds with
  | nil =>
    intro cal acc2 _
    exact ⟨[], by simp, rfl, rfl, by simp⟩
  | cons d ds ih =>
    intro cal acc2 hcond
    have hd : ¬(exam_date - (d : Int) < today) := hcond d (by simp)
    have hstep : reminder_step today subject base exam_date (cal, acc2) d =
        (⟨cal.events ++ [mkReminderEvent cal.nextId subject base exam_date d],
          cal.nextId + 1⟩,
         acc2 ++ [mkReminderEvent cal.nextId subject base exam_date d]) := by
      simp [reminder_step, hd]
    obtain ⟨evs, heq, hdays, hhash, hpar⟩ :=
      ih ⟨cal.events ++ [mkReminderEvent cal.nextId subject base exam_date d],
        cal.nextId + 1⟩
        (acc2 ++ [mkReminderEvent cal.nextId subject base exam_date d])
        (fun d2 h2 => hcond d2 (by simp [h2]))
    refine ⟨mkReminderEvent cal.nextId subject base exam_date d :: evs, ?_, ?_, ?_, ?_⟩
    · rw [List.foldl_cons, hstep, heq]
      simp only [Prod.mk.injEq, CalState.mk.injEq]
      refine ⟨⟨by simp, by simp only [List.length_cons]; omega⟩, by simp⟩
    · simp [hdays, mkReminderEvent]
    · simp [hhash, mkReminderEvent]
    · intro e he
      rcases List.mem_cons.mp he with rfl | he
      · rfl
      · exact hpar e he

theorem reminder_fold_skip (today exam_date : Int) (subject base : String) :
    ∀ (ds : List Nat) (acc : CalState × List GEvent),
    (∀ d ∈ ds, exam_date - (d : Int) < today) →
    ds.foldl (reminder_step today subject base exam_date) acc = acc := by
  intro ds
  induction ds with
  | nil => intro acc _; rfl
  | cons d ds ih =>
    intro acc hcond
    rw [List.foldl_cons]
    have hd : exam_date - (d : Int) < today := hcond d (by simp)
    have hstep : reminder_step today subject base exam_date acc d = acc := by
      simp [reminder_step, hd]
    rw [hstep]
    exact ih acc (fun d2 h2 => hcond d2 (by simp [h2]))

/-- C4: with study reminders enabled and the exam strictly in the future,
an exam k days ahead with k at least 10 fans out to exactly 7 reminder
events with days_before 1..7, pairwise distinct derived hashes (given that
the seven derived digests are distinct, which the witness checks by
computation) and the parent-exam back-reference on each; an exam 3 days
ahead yields exactly the 3 reminders with days_before at most 3, the rest
skipped individually as past-dated; and the exam loop counts the created
reminders. -/
theorem claim_c4_reminder_fanout (today exam_date : Int) (k : Int)
    (exam_title subject base : String) (cal : CalState)
    (hdate : exam_date = today + k)
    (hdist : ((List.range' 1 7).map (generate_reminder_hash base)).Pairwise
      (· ≠ ·)) :
    (k ≥ 10 →
      ∃ evs,
        create_study_reminder_events today exam_title exam_date subject base
            cal =
          (⟨cal.events ++ evs, cal.nextId + 7⟩, evs) ∧
        evs.length = 7 ∧
        evs.map (fun e => e.days_before) = (List.range' 1 7).map some ∧
        (∀ e ∈ evs, e.parent_exam_hash = some base) ∧
        (evs.map (fun e => e.pronote_hash)).Pairwise (· ≠ ·)) ∧
    (k = 3 →
      ∃ evs,
        create_study_reminder_events today exam_title exam_date subject base
            cal =
          (⟨cal.events ++ evs, cal.nextId + 3⟩, evs) ∧
        evs.length = 3 ∧
        evs.map (fun e => e.days_before) = [some 1, some 2, some 3] ∧
        (∀ e ∈ evs, e.parent_exam_hash = some base)) ∧
    (∀ (cfg : Config) (st : SyncState) (ex : Exam),
      cfg.study_reminders_enabled = true →
      ex.content_hash = some base → base ≠ "" →
      ex.exam_date = exam_date → k ≥ 10 →
      event_exists_by_hash today st.cal base = none →
      (process_exam cfg today st ex Fault.ok).counts.reminder_events_created =
        st.counts.reminder_events_created + 7) := by
  have hcond10 : k ≥ 10 →
      ∀ d ∈ List.range' 1 7, ¬(exam_date - (d : Int) < today) := by
    intro hk d hd
    rw [List.mem_range'_1] at hd
    omega
  refine ⟨?_, ?_, ?_⟩
  · intro hk
    obtain ⟨evs, heq, hdays, hhash, hpar⟩ :=
      reminder_fold_create today exam_date subject base (List.range' 1 7)
        cal [] (hcond10 hk)
    refine ⟨evs, ?_, ?_, hdays, hpar, ?_⟩
    · unfold create_study_reminder_events
      rw [heq]
      simp [List.length_range']
    · have := congrArg List.length hdays
      simpa [List.length_range'] using this
    · rw [hhash]; exact hdist
  · intro hk
    subst hk
    have hsplit : List.range' 1 7 = [1, 2, 3] ++ [4, 5, 6, 7] := rfl
    obtain ⟨evs, heq, hdays, hhash, hpar⟩ :=
      reminder_fold_create today exam_date subject base [1, 2, 3] cal []
        (by intro d hd; fin_cases hd <;> omega)
    refine ⟨evs, ?_, ?_, ?_, hpar⟩
    · unfold create_study_reminder_events
      rw [hsplit, List.foldl_append, heq,
        reminder_fold_skip today exam_date subject base [4, 5, 6, 7] _
          (by intro d hd; fin_cases hd <;> omega)]
      simp
    · have := congrArg List.length hdays
      simpa using this
    · simpa using hdays
  · intro cfg st ex hrem hch hbase hdate2 hk hfind
    have hfut : decide (ex.exam_date > today) = true := by
      rw [hdate2, hdate]; simp; omega
    obtain ⟨evs, heq, hdays, hhash, hpar⟩ :=
      reminder_fold_create today exam_date ex.subject base (List.range' 1 7)
        (create_exam_event st.cal (ex.subject ++ ": " ++ ex.description)
          exam_date (some base)).1
        [] (hcond10 hk)
    have hlen : evs.length = 7 := by
      have := congrArg List.length hdays
      simpa [List.length_range'] using this
    simp only [process_exam, process_exam_core, hch, hbase, hfind, hrem,
      hfut, Bool.and_self, if_true, if_neg]
    simp only [if_neg (by trivial : ¬(Fault.ok = Fault.searchRaise)),
      if_neg (by trivial : ¬(Fault.ok = Fault.searchHttp)),
      if_neg (by trivial : ¬(Fault.ok = Fault.createRaise)),
      if_neg (by trivial : ¬(Fault.ok = Fault.createFail))]
    unfold create_study_reminder_events
    rw [hdate2, heq]
    simp [hlen]

/-- Witness for C4 at a concrete exam: dated 10 days ahead all 7 reminders
appear with the back-reference, with their derived digests checked pairwise
distinct by computation; dated 3 days ahead exactly 3 appear. -/
theorem claim_c4_witness :
    (∃ evs,
      create_study_reminder_events 0 "Math: algebra" 10 "Math" "examhash"
          ⟨[], 0⟩ =
        (⟨[].append evs, 0 + 7⟩, evs) ∧
      evs.length = 7 ∧
      evs.map (fun e => e.days_before) = (List.range' 1 7).map some ∧
      (∀ e ∈ evs, e.parent_exam_hash = some "examhash") ∧
      (evs.map (fun e => e.pronote_hash)).Pairwise (· ≠ ·)) ∧
    (∃ evs,
      create_study_reminder_events 0 "Math: algebra" 3 "Math" "examhash"
          ⟨[], 0⟩ =
        (⟨[].append evs, 0 + 3⟩, evs) ∧
      evs.length = 3 ∧
      evs.map (fun e => e.days_before) = [some 1, some 2, some 3] ∧
      (∀ e ∈ evs, e.parent_exam_hash = some "examhash")) :=
  ⟨(claim_c4_reminder_fanout 0 10 10 "Math: algebra" "Math" "examhash" ⟨[], 0⟩
      (by norm_num) (by decide)).1 (by norm_num),
   (claim_c4_reminder_fanout 0 3 3 "Math: algebra" "Math" "examhash" ⟨[], 0⟩
      (by norm_num) (by decide)).2.1 rfl⟩

theorem truthyHash_some (o : Option String) (h : truthyHash o = true) :
    ∃ s, o = some s ∧ s ≠ "" := by
  cases o with
  | none => simp [truthyHash] at h
  | some s => exact ⟨s, rfl, by simpa [truthyHash] using h⟩

theorem event_exists_append_none (today : Int) (l₁ l₂ : List GEvent)
    (n m : Nat) (h' : String) (hne : ∀ e ∈ l₂, e.pronote_hash ≠ h') :
    event_exists_by_hash today ⟨l₁ ++ l₂, n⟩ h' =
      event_exists_by_hash today ⟨l₁, m⟩ h' := by
  rw [event_exists_by_hash_eq_find?, event_exists_by_hash_eq_find?]
  show (l₁ ++ l₂).find? _ = l₁.find? _
  rw [List.find?_append]
  have h2 : l₂.find? (hashMatch today h') = none := by
    apply List.find?_eq_none.mpr
    intro e he hm
    exact hne e he ((hashMatch_iff today h' e).mp hm).2.2
  rw [h2, Option.or_none]

theorem event_exists_append_some (today : Int) (l₁ l₂ : List GEvent)
    (n m : Nat) (h' : String) (e : GEvent)
    (hsome : event_exists_by_hash today ⟨l₁, m⟩ h' = some e) :
    event_exists_by_hash today ⟨l₁ ++ l₂, n⟩ h' = some e := by
  rw [event_exists_by_hash_eq_find?] at hsome ⊢
  show (l₁ ++ l₂).find? _ = some e
  rw [List.find?_append]
  have h1 : l₁.find? (hashMatch today h') = some e := hsome
  rw [h1]
  rfl

theorem event_exists_isSome_append (today : Int) (l₁ l₂ : List GEvent)
    (n m : Nat) (h' : String)
    (hs : (event_exists_by_hash today ⟨l₁, m⟩ h').isSome = true) :
    (event_exists_by_hash today ⟨l₁ ++ l₂, n⟩ h').isSome = true := by
  obtain ⟨e, he⟩ := Option.isSome_iff_exists.mp hs
  rw [event_exists_append_some today l₁ l₂ n m h' e he]
  rfl

theorem event_exists_cons_match (today : Int) (l₁ : List GEvent) (e : GEvent)
    (l₂ : List GEvent) (n m : Nat) (h' : String)
    (hnone : event_exists_by_hash today ⟨l₁, m⟩ h' = none)
    (hm : hashMatch today h' e = true) :
    event_exists_by_hash today ⟨l₁ ++ e :: l₂, n⟩ h' = some e := by
  rw [event_exists_by_hash_eq_find?] at hnone ⊢
  show (l₁ ++ e :: l₂).find? _ = some e
  rw [List.find?_append]
  have h1 : l₁.find? (hashMatch today h') = none := hnone
  rw [h1, Option.none_or]
  exact List.find?_cons_of_pos l₂ hm

theorem process_homework_create_step (today : Int) (st : SyncState)
    (hw : Homework) (h : String) (hch : hw.content_hash = some h)
    (hne : h ≠ "") (hfind : event_exists_by_hash today st.cal h = none) :
    process_homework today st hw Fault.ok =
      ⟨⟨st.cal.events ++
          [⟨st.cal.nextId, hwTitle hw, hw.due_date, "pronote", h,
            hw.assignment_type, none, none⟩],
        st.cal.nextId + 1⟩,
       { st.counts with events_created := st.counts.events_created + 1 },
       st.trace ++ [Call.search h, Call.create (hwTitle hw) h]⟩ := by
  simp [process_homework, process_homework_core, hch, hne, hfind,
    create_event, hwTitle]

theorem process_homework_skip_step (today : Int) (st : SyncState)
    (hw : Homework) (h : String) (e : GEvent)
    (hch : hw.content_hash = some h) (hne : h ≠ "")
    (hfind : event_exists_by_hash today st.cal h = some e)
    (hsum : e.summary = hwTitle hw) :
    process_homework today st hw Fault.ok =
      ⟨st.cal,
       { st.counts with events_skipped := st.counts.events_skipped + 1 },
       st.trace ++ [Call.search h]⟩ := by
  simp only [hwTitle] at hsum
  simp [process_homework, process_homework_core, hch, hne, hfind, hsum]

theorem process_exam_skip_step (cfg : Config) (today : Int) (st : SyncState)
    (ex : Exam) (h : String) (e : GEvent)
    (hch : ex.content_hash = some h) (hne : h ≠ "")
    (hfind : event_exists_by_hash today st.cal h = some e) :
    process_exam cfg today st ex Fault.ok =
      ⟨st.cal,
       { st.counts with events_skipped := st.counts.events_skipped + 1 },
       st.trace ++ [Call.search h]⟩ := by
  simp [process_exam, process_exam_core, hch, hne, hfind]

theorem reminder_fold_general (today exam_date : Int) (subject base : String) :
    ∀ (ds : List Nat) (cal : CalState) (acc2 : List GEvent),
    ∃ revs,
      ds.foldl (reminder_step today subject base exam_date) (cal, acc2) =
        (⟨cal.events ++ revs, cal.nextId + revs.length⟩, acc2 ++ revs) ∧
      ∀ e ∈ revs, ∃ d, d ∈ ds ∧
        e.pronote_hash = generate_reminder_hash base d := by
  intro ds
  induction ds with
  | nil => intro cal acc2; exact ⟨[], by simp, by simp⟩
  | cons d ds ih =>
    intro cal acc2
    by_cases hd : exam_date - (d : Int) < today
    · obtain ⟨revs, heq, hrev⟩ := ih cal acc2
      refine ⟨revs, ?_, ?_⟩
      · rw [List.foldl_cons]
        have hstep : reminder_step today subject base exam_date (cal, acc2) d =
            (cal, acc2) := by simp [reminder_step, hd]
        rw [hstep, heq]
      · intro e he
        obtain ⟨d2, hd2, he2⟩ := hrev e he
        exact ⟨d2, by simp [hd2], he2⟩
    · obtain ⟨revs, heq, hrev⟩ :=
        ih ⟨cal.events ++ [mkReminderEvent cal.nextId subject base exam_date d],
          cal.nextId + 1⟩
          (acc2 ++ [mkReminderEvent cal.nextId subject base exam_date d])
      refine ⟨mkReminderEvent cal.nextId subject base exam_date d :: revs,
        ?_, ?_⟩
      · rw [List.foldl_cons]
        have hstep : reminder_step today subject base exam_date (cal, acc2) d =
            (⟨cal.events ++ [mkReminderEvent cal.nextId subject base exam_date d],
              cal.nextId + 1⟩,
             acc2 ++ [mkReminderEvent cal.nextId subject base exam_date d]) := by
          simp [reminder_step, hd]
        rw [hstep, heq]
        simp only [Prod.mk.injEq, CalState.mk.injEq]
        refine ⟨⟨by simp, by simp only [List.length_cons]; omega⟩, by simp⟩
      · intro e he
        rcases List.mem_cons.mp he with rfl | he
        · exact ⟨d, by simp, rfl⟩
        · obtain ⟨d2, hd2, he2⟩ := hrev e he
          exact ⟨d2, by simp [hd2], he2⟩

theorem process_exam_create_step (cfg : Config) (today : Int) (st : SyncState)
    (ex : Exam) (h : String) (hch : ex.content_hash = some h) (hne : h ≠ "")
    (hfind : event_exists_by_hash today st.cal h = none) :
    ∃ (newEvts : List GEvent) (n : Nat) (R : Nat) (tr : List Call),
      process_exam cfg today st ex Fault.ok =
        ⟨⟨st.cal.events ++ newEvts, n⟩,
         { st.counts with
             exam_events_created := st.counts.exam_events_created + 1
             reminder_events_created := st.counts.reminder_events_created + R },
         st.trace ++ tr⟩ ∧
      (∀ e ∈ newEvts, e.pronote_hash = h ∨
        ∃ d, d ∈ List.range' 1 7 ∧
          e.pronote_hash = generate_reminder_hash h d) ∧
      (⟨st.cal.nextId, "🎓 " ++ (ex.subject ++ ": " ++ ex.description),
        ex.exam_date, "pronote", h, "exam", none, none⟩ : GEvent) ∈ newEvts := by
  by_cases hgate :
      (cfg.study_reminders_enabled && decide (ex.exam_date > today)) = true
  · obtain ⟨revs, heq, hrev⟩ :=
      reminder_fold_general today ex.exam_date ex.subject h (List.range' 1 7)
        ⟨st.cal.events ++
          [⟨st.cal.nextId, "🎓 " ++ (ex.subject ++ ": " ++ ex.description),
            ex.exam_date, "pronote", h, "exam", none, none⟩],
          st.cal.nextId + 1⟩ []
    refine ⟨⟨st.cal.nextId, "🎓 " ++ (ex.subject ++ ": " ++ ex.description),
        ex.exam_date, "pronote", h, "exam", none, none⟩ :: revs,
      st.cal.nextId + 1 + revs.length, revs.length,
      [Call.search h,
        Call.createExam (ex.subject ++ ": " ++ ex.description) h] ++
        revs.map (fun e => Call.createReminder e.pronote_hash),
      ?_, ?_, by simp⟩
    · simp [process_exam, process_exam_core, hch, hne, hfind, hgate,
        create_exam_event, create_study_reminder_events, heq,
        List.append_assoc]
    · intro e he
      rcases List.mem_cons.mp he with rfl | he
      · exact Or.inl rfl
      · obtain ⟨d, hd, hhash⟩ := hrev e he
        exact Or.inr ⟨d, hd, hhash⟩
  · refine ⟨[⟨st.cal.nextId, "🎓 " ++ (ex.subject ++ ": " ++ ex.description),
        ex.exam_date, "pronote", h, "exam", none, none⟩],
      st.cal.nextId + 1, 0,
      [Call.search h,
        Call.createExam (ex.subject ++ ": " ++ ex.description) h],
      ?_, ?_, by simp⟩
    · have hgatef :
          (cfg.study_reminders_enabled && decide (ex.exam_date > today)) = false := by
        revert hgate
        cases cfg.study_reminders_enabled && decide (ex.exam_date > today) <;> simp
      simp [process_exam, process_exam_core, hch, hne, hfind, hgatef,
        create_exam_event]
    · intro e he
      rcases List.mem_cons.mp he with rfl | he
      · exact Or.inl rfl
      · simp at he

theorem run1_homework_loop (today : Int) :
    ∀ (items : List (Homework × Fault)) (st : SyncState),
    (∀ p ∈ items, p.2 = Fault.ok) →
    (∀ p ∈ items, truthyHash p.1.content_hash = true) →
    ((items.map (fun p => hwHash p.1)).Pairwise (· ≠ ·)) →
    (∀ p ∈ items, event_exists_by_hash today st.cal (hwHash p.1) = none) →
    (∀ p ∈ items, today - 90 ≤ p.1.due_date ∧ p.1.due_date ≤ today + 90) →
    ∃ (newEvents : List GEvent) (n : Nat) (tr : List Call),
      run_homework_loop today items st =
        ⟨⟨st.cal.events ++ newEvents, n⟩,
         { st.counts with
             events_created := st.counts.events_created + items.length },
         st.trace ++ tr⟩ ∧
      (∀ e ∈ newEvents, e.pronote_hash ∈ items.map (fun p => hwHash p.1)) ∧
      (∀ p ∈ items, ∃ e,
        event_exists_by_hash today ⟨st.cal.events ++ newEvents, n⟩
          (hwHash p.1) = some e ∧
        e.summary = hwTitle p.1) := by
  intro items
  induction items with
  | nil =>
    intro st _ _ _ _ _
    refine ⟨[], st.cal.nextId, [], ?_, by simp, by simp⟩
    show st = _
    simp
  | cons p rest ih =>
    intro st hfaults htruthy hpw hfresh hwin
    obtain ⟨hw, f⟩ := p
    have hf : f = Fault.ok := hfaults (hw, f) (by simp)
    subst hf
    obtain ⟨h, hch0, hne⟩ := truthyHash_some _ (htruthy (hw, Fault.ok) (by simp))
    have hch : hw.content_hash = some h := hch0
    have hh : hwHash hw = h := by simp [hwHash, hch]
    have hfind : event_exists_by_hash today st.cal h = none := by
      rw [← hh]; exact hfresh (hw, Fault.ok) (by simp)
    have hstep := process_homework_create_step today st hw h hch hne hfind
    have hrun : run_homework_loop today ((hw, Fault.ok) :: rest) st =
        run_homework_loop today rest (process_homework today st hw Fault.ok) :=
      rfl
    set newEv : GEvent :=
      ⟨st.cal.nextId, hwTitle hw, hw.due_date, "pronote", h,
        hw.assignment_type, none, none⟩ with hnewEv
    have hpw2 := List.pairwise_cons.mp hpw
    obtain ⟨newE2, n2, tr2, heq2, hmem2, hfound2⟩ := ih
      ⟨⟨st.cal.events ++ [newEv], st.cal.nextId + 1⟩,
       { st.counts with events_created := st.counts.events_created + 1 },
       st.trace ++ [Call.search h, Call.create (hwTitle hw) h]⟩
      (fun q hq => hfaults q (by simp [hq]))
      (fun q hq => htruthy q (by simp [hq]))
      hpw2.2
      (fun q hq => by
        show event_exists_by_hash today ⟨st.cal.events ++ [newEv], _⟩ _ = none
        rw [event_exists_append_none today st.cal.events [newEv]
          (st.cal.nextId + 1) st.cal.nextId (hwHash q.1)
          (by
            intro e he
            have he2 : e = newEv := by simpa using he
            subst he2
            show h ≠ hwHash q.1
            rw [← hh]
            exact hpw2.1 (hwHash q.1)
              (List.mem_map_of_mem (fun r => hwHash r.1) hq))]
        exact hfresh q (by simp [hq]))
      (fun q hq => hwin q (by simp [hq]))
    refine ⟨newEv :: newE2, n2,
      [Call.search h, Call.create (hwTitle hw) h] ++ tr2, ?_, ?_, ?_⟩
    · rw [hrun, hstep, heq2]
      have h2 : st.counts.events_created + 1 + rest.length =
          st.counts.events_created + (rest.length + 1) := by omega
      simp [h2, List.append_assoc]
    · intro e he
      rcases List.mem_cons.mp he with rfl | he
      · simp [hh]
      · have := hmem2 e he
        simp only [List.map_cons, List.mem_cons]
        exact Or.inr this
    · intro q hq
      rcases List.mem_cons.mp hq with rfl | hq
      · refine ⟨newEv, ?_, rfl⟩
        rw [hh]
        apply event_exists_cons_match today st.cal.events newEv newE2 n2
          st.cal.nextId h hfind
        apply (hashMatch_iff today h newEv).mpr
        refine ⟨?_, rfl, rfl⟩
        have hw2 := hwin (hw, Fault.ok) (by simp)
        simp only [inSearchWindow, hnewEv]
        rw [decide_eq_true hw2.1, decide_eq_true hw2.2]
        rfl
      · obtain ⟨e, he, hes⟩ := hfound2 q hq
        refine ⟨e, ?_, hes⟩
        have hassoc : (st.cal.events ++ [newEv]) ++ newE2 =
            st.cal.events ++ newEv :: newE2 := by simp
        rw [← hassoc]
        exact he

theorem run1_exam_loop (cfg : Config) (today : Int) :
    ∀ (items : List (Exam × Fault)) (st : SyncState),
    (∀ p ∈ items, p.2 = Fault.ok) →
    (∀ p ∈ items, truthyHash p.1.content_hash = true) →
    ((items.map (fun p => exHash p.1)).Pairwise (· ≠ ·)) →
    (∀ p ∈ items, event_exists_by_hash today st.cal (exHash p.1) = none) →
    (∀ p ∈ items, today - 90 ≤ p.1.exam_date ∧ p.1.exam_date ≤ today + 90) →
    (∀ p ∈ items, ∀ d ∈ List.range' 1 7, ∀ q ∈ items,
      generate_reminder_hash (exHash p.1) d ≠ exHash q.1) →
    ∃ (newEvents : List GEvent) (n : Nat) (tr : List Call) (R : Nat),
      run_exam_loop cfg today items st =
        ⟨⟨st.cal.events ++ newEvents, n⟩,
         { st.counts with
             exam_events_created :=
               st.counts.exam_events_created + items.length
             reminder_events_created :=
               st.counts.reminder_events_created + R },
         st.trace ++ tr⟩ ∧
      (∀ p ∈ items,
        (event_exists_by_hash today ⟨st.cal.events ++ newEvents, n⟩
          (exHash p.1)).isSome = true) := by
  intro items
  induction items with
  | nil =>
    intro st _ _ _ _ _ _
    refine ⟨[], st.cal.nextId, [], 0, ?_, by simp⟩
    show st = _
    simp
  | cons p rest ih =>
    intro st hfaults htruthy hpw hfresh hwin hrem
    obtain ⟨ex, f⟩ := p
    have hf : f = Fault.ok := hfaults (ex, f) (by simp)
    subst hf
    obtain ⟨h, hch0, hne⟩ := truthyHash_some _ (htruthy (ex, Fault.ok) (by simp))
    have hch : ex.content_hash = some h := hch0
    have hh : exHash ex = h := by simp [exHash, hch]
    have hfind : event_exists_by_hash today st.cal h = none := by
      rw [← hh]; exact hfresh (ex, Fault.ok) (by simp)
    obtain ⟨newEvts, n1, R1, tr1, hstep, hmem1, hexmem⟩ :=
      process_exam_create_step cfg today st ex h hch hne hfind
    have hrun : run_exam_loop cfg today ((ex, Fault.ok) :: rest) st =
        run_exam_loop cfg today rest (process_exam cfg today st ex Fault.ok) :=
      rfl
    have hpw2 := List.pairwise_cons.mp hpw
    have hblock : ∀ e ∈ newEvts, ∀ q, q ∈ rest → e.pronote_hash ≠ exHash q.1 := by
      intro e he q hq
      rcases hmem1 e he with hehash | ⟨d, hd, hehash⟩
      · rw [hehash, ← hh]
        have hne2 := hpw2.1 (exHash q.1)
          (List.mem_map_of_mem (fun r => exHash r.1) hq)
        simpa using hne2
      · rw [hehash, ← hh]
        exact hrem (ex, Fault.ok) (by simp) d hd q (by simp [hq])
    obtain ⟨newE2, n2, tr2, R2, heq2, hfound2⟩ := ih
      ⟨⟨st.cal.events ++ newEvts, n1⟩,
       { st.counts with
           exam_events_created := st.counts.exam_events_created + 1
           reminder_events_created := st.counts.reminder_events_created + R1 },
       st.trace ++ tr1⟩
      (fun q hq => hfaults q (by simp [hq]))
      (fun q hq => htruthy q (by simp [hq]))
      hpw2.2
      (fun q hq => by
        show event_exists_by_hash today ⟨st.cal.events ++ newEvts, _⟩ _ = none
        rw [event_exists_append_none today st.cal.events newEvts
          n1 st.cal.nextId (exHash q.1)
          (fun e he => hblock e he q hq)]
        exact hfresh q (by simp [hq]))
      (fun q hq => hwin q (by simp [hq]))
      (fun q hq d hd r hr =>
        hrem q (by simp [hq]) d hd r (by simp [hr]))
    refine ⟨newEvts ++ newE2, n2, tr1 ++ tr2, R1 + R2, ?_, ?_⟩
    · rw [hrun, hstep, heq2]
      have h2 : st.counts.exam_events_created + 1 + rest.length =
          st.counts.exam_events_created + (rest.length + 1) := by omega
      have h3 : st.counts.reminder_events_created + R1 + R2 =
          st.counts.reminder_events_created + (R1 + R2) := by omega
      simp [h2, h3, List.append_assoc]
    · intro q hq
      rcases List.mem_cons.mp hq with rfl | hq
      · have hmm : (⟨st.cal.nextId, "🎓 " ++ (ex.subject ++ ": " ++ ex.description),
            ex.exam_date, "pronote", h, "exam", none, none⟩ : GEvent) ∈
            st.cal.events ++ (newEvts ++ newE2) :=
          List.mem_append.mpr (Or.inr (List.mem_append.mpr (Or.inl hexmem)))
        show (event_exists_by_hash today
          ⟨st.cal.events ++ (newEvts ++ newE2), n2⟩ (exHash ex)).isSome = true
        rw [hh, event_exists_by_hash_eq_find?]
        apply List.find?_isSome.mpr
        refine ⟨_, hmm, ?_⟩
        apply (hashMatch_iff today h _).mpr
        refine ⟨?_, rfl, rfl⟩
        have hw2 : today - 90 ≤ ex.exam_date ∧ ex.exam_date ≤ today + 90 :=
          hwin (ex, Fault.ok) (by simp)
        simp only [inSearchWindow]
        rw [decide_eq_true hw2.1, decide_eq_true hw2.2]
        rfl
      · have hrest := hfound2 q hq
        have hassoc : (st.cal.events ++ newEvts) ++ newE2 =
            st.cal.events ++ (newEvts ++ newE2) := by simp
        rw [← hassoc]
        exact hrest

theorem run2_homework_loop (today : Int) :
    ∀ (items : List (Homework × Fault)) (st : SyncState),
    (∀ p ∈ items, p.2 = Fault.ok) →
    (∀ p ∈ items, truthyHash p.1.content_hash = true) →
    (∀ p ∈ items, ∃ e,
      event_exists_by_hash today st.cal (hwHash p.1) = some e ∧
      e.summary = hwTitle p.1) →
    ∃ tr, run_homework_loop today items st =
      ⟨st.cal,
       { st.counts with
           events_skipped := st.counts.events_skipped + items.length },
       st.trace ++ tr⟩ := by
  intro items
  induction items with
  | nil =>
    intro st _ _ _
    refine ⟨[], ?_⟩
    show st = _
    simp
  | cons p rest ih =>
    intro st hfaults htruthy hfound
    obtain ⟨hw, f⟩ := p
    have hf : f = Fault.ok := hfaults (hw, f) (by simp)
    subst hf
    obtain ⟨h, hch0, hne⟩ := truthyHash_some _ (htruthy (hw, Fault.ok) (by simp))
    have hch : hw.content_hash = some h := hch0
    have hh : hwHash hw = h := by simp [hwHash, hch]
    obtain ⟨e, hfind, hsum⟩ := hfound (hw, Fault.ok) (by simp)
    have hfind2 : event_exists_by_hash today st.cal h = some e := by
      rw [← hh]; exact hfind
    have hsum2 : e.summary = hwTitle hw := hsum
    have hstep := process_homework_skip_step today st hw h e hch hne hfind2 hsum2
    have hrun : run_homework_loop today ((hw, Fault.ok) :: rest) st =
        run_homework_loop today rest (process_homework today st hw Fault.ok) :=
      rfl
    obtain ⟨tr2, heq2⟩ := ih
      ⟨st.cal,
       { st.counts with
           events_skipped := st.counts.events_skipped + 1 },
       st.trace ++ [Call.search h]⟩
      (fun q hq => hfaults q (by simp [hq]))
      (fun q hq => htruthy q (by simp [hq]))
      (fun q hq => hfound q (by simp [hq]))
    refine ⟨[Call.search h] ++ tr2, ?_⟩
    rw [hrun, hstep, heq2]
    have h2 : st.counts.events_skipped + 1 + rest.length =
        st.counts.events_skipped + (rest.length + 1) := by omega
    simp [h2]

theorem run2_exam_loop (cfg : Config) (today : Int) :
    ∀ (items : List (Exam × Fault)) (st : SyncState),
    (∀ p ∈ items, p.2 = Fault.ok) →
    (∀ p ∈ items, truthyHash p.1.content_hash = true) →
    (∀ p ∈ items,
      (event_exists_by_hash today st.cal (exHash p.1)).isSome = true) →
    ∃ tr, run_exam_loop cfg today items st =
      ⟨st.cal,
       { st.counts with
           events_skipped := st.counts.events_skipped + items.length },
       st.trace ++ tr⟩ := by
  intro items
  induction items with
  | nil =>
    intro st _ _ _
    refine ⟨[], ?_⟩
    show st = _
    simp
  | cons p rest ih =>
    intro st hfaults htruthy hfound
    obtain ⟨ex, f⟩ := p
    have hf : f = Fault.ok := hfaults (ex, f) (by simp)
    subst hf
    obtain ⟨h, hch0, hne⟩ := truthyHash_some _ (htruthy (ex, Fault.ok) (by simp))
    have hch : ex.content_hash = some h := hch0
    have hh : exHash ex = h := by simp [exHash, hch]
    have hs : (event_exists_by_hash today st.cal h).isSome = true := by
      rw [← hh]; exact hfound (ex, Fault.ok) (by simp)
    obtain ⟨e, hfind⟩ := Option.isSome_iff_exists.mp hs
    have hstep := process_exam_skip_step cfg today st ex h e hch hne hfind
    have hrun : run_exam_loop cfg today ((ex, Fault.ok) :: rest) st =
        run_exam_loop cfg today rest (process_exam cfg today st ex Fault.ok) :=
      rfl
    obtain ⟨tr2, heq2⟩ := ih
      ⟨st.cal,
       { st.counts with
           events_skipped := st.counts.events_skipped + 1 },
       st.trace ++ [Call.search h]⟩
      (fun q hq => hfaults q (by simp [hq]))
      (fun q hq => htruthy q (by simp [hq]))
      (fun q hq => hfound q (by simp [hq]))
    refine ⟨[Call.search h] ++ tr2, ?_⟩
    rw [hrun, hstep, heq2]
    have h2 : st.counts.events_skipped + 1 + rest.length =
        st.counts.events_skipped + (rest.length + 1) := by omega
    simp [h2]

theorem lambda_handler_gate (cfg : Config) (today : Int)
    (i1 : List (Homework × Fault)) (i2 : List (Exam × Fault))
    (cal0 : CalState) (hsync : cfg.exam_sync_enabled = true) :
    lambda_handler cfg today i1 i2 cal0 =
      run_exam_loop cfg today i2 (run_homework_loop today i1 ⟨cal0, {}, []⟩) := by
  unfold lambda_handler
  cases i2 with
  | nil => simp [hsync, run_exam_loop]
  | cons a l => simp [hsync]

/-- C1: against an unchanged source snapshot (homework and exam records
with present, pairwise distinct content hashes, dated inside the search
window, the derived reminder digests colliding with no exam hash) and an
initially empty destination, run 1 creates one event per record with
nothing updated or skipped, and run 2 creates and updates nothing, skips
every record on a hash match, and leaves the calendar untouched -- so at
most one CREATE is issued per unique content hash across the two runs. -/
theorem claim_c1_idempotence (cfg : Config) (today : Int) (n0 : Nat)
    (hws : List Homework) (exs : List Exam)
    (hsync : cfg.exam_sync_enabled = true)
    (hthw : ∀ hw ∈ hws, truthyHash hw.content_hash = true)
    (htex : ∀ ex ∈ exs, truthyHash ex.content_hash = true)
    (hdist : ((hws.map hwHash) ++ (exs.map exHash)).Pairwise (· ≠ ·))
    (hwwin : ∀ hw ∈ hws, today - 90 ≤ hw.due_date ∧ hw.due_date ≤ today + 90)
    (hexwin : ∀ ex ∈ exs,
      today - 90 ≤ ex.exam_date ∧ ex.exam_date ≤ today + 90)
    (hrem : ∀ ex ∈ exs, ∀ d ∈ List.range' 1 7, ∀ ex2 ∈ exs,
      generate_reminder_hash (exHash ex) d ≠ exHash ex2) :
    let items1 := hws.map (fun hw => (hw, Fault.ok))
    let items2 := exs.map (fun ex => (ex, Fault.ok))
    let r1 := lambda_handler cfg today items1 items2 ⟨[], n0⟩
    let r2 := lambda_handler cfg today items1 items2 r1.cal
    r1.counts.events_created = hws.length ∧
    r1.counts.events_updated = 0 ∧
    r1.counts.events_skipped = 0 ∧
    r1.counts.exam_events_created = exs.length ∧
    r2.counts.events_created = 0 ∧
    r2.counts.events_updated = 0 ∧
    r2.counts.exam_events_created = 0 ∧
    r2.counts.reminder_events_created = 0 ∧
    r2.counts.events_skipped = hws.length + exs.length ∧
    r2.cal = r1.cal := by
  intro items1 items2 r1 r2
  have hsplit := List.pairwise_append.mp hdist
  have hmap1 : items1.map (fun p => hwHash p.1) = hws.map hwHash := by
    simp [items1]
  have hmap2 : items2.map (fun p => exHash p.1) = exs.map exHash := by
    simp [items2]
  have hfault1 : ∀ p ∈ items1, p.2 = Fault.ok := by
    intro p hp
    obtain ⟨hw, _, rfl⟩ := List.mem_map.mp hp
    rfl
  have hfault2 : ∀ p ∈ items2, p.2 = Fault.ok := by
    intro p hp
    obtain ⟨ex, _, rfl⟩ := List.mem_map.mp hp
    rfl
  have htruthy1 : ∀ p ∈ items1, truthyHash p.1.content_hash = true := by
    intro p hp
    obtain ⟨hw, hm, rfl⟩ := List.mem_map.mp hp
    exact hthw hw hm
  have htruthy2 : ∀ p ∈ items2, truthyHash p.1.content_hash = true := by
    intro p hp
    obtain ⟨ex, hm, rfl⟩ := List.mem_map.mp hp
    exact htex ex hm
  have hwin1 : ∀ p ∈ items1,
      today - 90 ≤ p.1.due_date ∧ p.1.due_date ≤ today + 90 := by
    intro p hp
    obtain ⟨hw, hm, rfl⟩ := List.mem_map.mp hp
    exact hwwin hw hm
  have hwin2 : ∀ p ∈ items2,
      today - 90 ≤ p.1.exam_date ∧ p.1.exam_date ≤ today + 90 := by
    intro p hp
    obtain ⟨ex, hm, rfl⟩ := List.mem_map.mp hp
    exact hexwin ex hm
  obtain ⟨newE1, n1, tr1, heq1, hmemE1, hfound1⟩ :=
    run1_homework_loop today items1 ⟨⟨[], n0⟩, {}, []⟩
      hfault1 htruthy1 (by rw [hmap1]; exact hsplit.1)
      (fun p _ => rfl) hwin1
  obtain ⟨newE2, n2, tr2, R2, heq2, hfound2⟩ :=
    run1_exam_loop cfg today items2
      (run_homework_loop today items1 ⟨⟨[], n0⟩, {}, []⟩)
      hfault2 htruthy2 (by rw [hmap2]; exact hsplit.2.1)
      (by
        intro q hq
        rw [heq1]
        show event_exists_by_hash today ⟨[] ++ newE1, n1⟩ (exHash q.1) = none
        rw [event_exists_append_none today [] newE1 n1 0 (exHash q.1)
          (by
            intro e he
            have hmm := hmemE1 e he
            rw [hmap1] at hmm
            obtain ⟨q0, hq0, rfl⟩ := List.mem_map.mp hq
            exact hsplit.2.2 e.pronote_hash hmm (exHash q0)
              (List.mem_map_of_mem exHash hq0))]
        rfl)
      hwin2
      (by
        intro p hp d hd q hq
        obtain ⟨p0, hp0, rfl⟩ := List.mem_map.mp hp
        obtain ⟨q0, hq0, rfl⟩ := List.mem_map.mp hq
        exact hrem p0 hp0 d hd q0 hq0)
  have hgate1 := lambda_handler_gate cfg today items1 items2 ⟨[], n0⟩ hsync
  have hr1cal : r1.cal = ⟨([] ++ newE1) ++ newE2, n2⟩ := by
    show (lambda_handler cfg today items1 items2 ⟨[], n0⟩).cal = _
    rw [hgate1, heq2, heq1]
  have hfound1F : ∀ p ∈ items1, ∃ e,
      event_exists_by_hash today r1.cal (hwHash p.1) = some e ∧
      e.summary = hwTitle p.1 := by
    intro p hp
    obtain ⟨e, he, hs⟩ := hfound1 p hp
    refine ⟨e, ?_, hs⟩
    rw [hr1cal]
    exact event_exists_append_some today ([] ++ newE1) newE2 n2 n1
      (hwHash p.1) e he
  have hfound2F : ∀ p ∈ items2,
      (event_exists_by_hash today r1.cal (exHash p.1)).isSome = true := by
    intro p hp
    have key := hfound2 p hp
    rw [heq1] at key
    rw [hr1cal]
    simpa using key
  obtain ⟨trA, heqA⟩ :=
    run2_homework_loop today items1 ⟨r1.cal, {}, []⟩
      hfault1 htruthy1 (fun p hp => hfound1F p hp)
  obtain ⟨trB, heqB⟩ :=
    run2_exam_loop cfg today items2
      (run_homework_loop today items1 ⟨r1.cal, {}, []⟩)
      hfault2 htruthy2
      (by
        intro q hq
        rw [heqA]
        show (event_exists_by_hash today r1.cal (exHash q.1)).isSome = true
        exact hfound2F q hq)
  have hgate2 := lambda_handler_gate cfg today items1 items2 r1.cal hsync
  have hr2full : r2 = run_exam_loop cfg today items2
      (run_homework_loop today items1 ⟨r1.cal, {}, []⟩) := hgate2
  have hlen1 : items1.length = hws.length := by simp [items1]
  have hlen2 : items2.length = exs.length := by simp [items2]
  refine ⟨?_, ?_, ?_, ?_, ?_, ?_, ?_, ?_, ?_, ?_⟩
  · show (lambda_handler cfg today items1 items2 ⟨[], n0⟩).counts.events_created = _
    rw [hgate1, heq2, heq1]
    simp [hlen1]
  · show (lambda_handler cfg today items1 items2 ⟨[], n0⟩).counts.events_updated = _
    rw [hgate1, heq2, heq1]
  · show (lambda_handler cfg today items1 items2 ⟨[], n0⟩).counts.events_skipped = _
    rw [hgate1, heq2, heq1]
  · show (lambda_handler cfg today items1 items2 ⟨[], n0⟩).counts.exam_events_created = _
    rw [hgate1, heq2, heq1]
    simp [hlen2]
  · rw [hr2full, heqB, heqA]
  · rw [hr2full, heqB, heqA]
  · rw [hr2full, heqB, heqA]
  · rw [hr2full, heqB, heqA]
  · rw [hr2full, heqB, heqA]
    simp [hlen1, hlen2]
  · rw [hr2full, heqB, heqA]

/-- Witness for C1: one homework record and one exam record, hashes "h1"
and "e1", empty destination; run 1 creates both, run 2 skips both and
leaves the calendar unchanged.  The reminder-collision hypothesis is
discharged by computing the seven derived digests. -/
theorem claim_c1_witness :
    (lambda_handler {} 0
        [(⟨"Math", "exercise 1", "d", 5, "homework", some "h1"⟩, Fault.ok)]
        [(⟨"Math", "algebra test", "d", 8, some "T", some "2", "evaluation",
            some "e1"⟩, Fault.ok)]
        ⟨[], 0⟩).counts.events_created = 1 ∧
    (lambda_handler {} 0
        [(⟨"Math", "exercise 1", "d", 5, "homework", some "h1"⟩, Fault.ok)]
        [(⟨"Math", "algebra test", "d", 8, some "T", some "2", "evaluation",
            some "e1"⟩, Fault.ok)]
        ⟨[], 0⟩).counts.events_updated = 0 ∧
    (lambda_handler {} 0
        [(⟨"Math", "exercise 1", "d", 5, "homework", some "h1"⟩, Fault.ok)]
        [(⟨"Math", "algebra test", "d", 8, some "T", some "2", "evaluation",
            some "e1"⟩, Fault.ok)]
        ⟨[], 0⟩).counts.events_skipped = 0 ∧
    (lambda_handler {} 0
        [(⟨"Math", "exercise 1", "d", 5, "homework", some "h1"⟩, Fault.ok)]
        [(⟨"Math", "algebra test", "d", 8, some "T", some "2", "evaluation",
            some "e1"⟩, Fault.ok)]
        ⟨[], 0⟩).counts.exam_events_created = 1 ∧
    (lambda_handler {} 0
        [(⟨"Math", "exercise 1", "d", 5, "homework", some "h1"⟩, Fault.ok)]
        [(⟨"Math", "algebra test", "d", 8, some "T", some "2", "evaluation",
            some "e1"⟩, Fault.ok)]
        (lambda_handler {} 0
          [(⟨"Math", "exercise 1", "d", 5, "homework", some "h1"⟩, Fault.ok)]
          [(⟨"Math", "algebra test", "d", 8, some "T", some "2", "evaluation",
              some "e1"⟩, Fault.ok)]
          ⟨[], 0⟩).cal).counts.events_created = 0 ∧
    (lambda_handler {} 0
        [(⟨"Math", "exercise 1", "d", 5, "homework", some "h1"⟩, Fault.ok)]
        [(⟨"Math", "algebra test", "d", 8, some "T", some "2", "evaluation",
            some "e1"⟩, Fault.ok)]
        (lambda_handler {} 0
          [(⟨"Math", "exercise 1", "d", 5, "homework", some "h1"⟩, Fault.ok)]
          [(⟨"Math", "algebra test", "d", 8, some "T", some "2", "evaluation",
              some "e1"⟩, Fault.ok)]
          ⟨[], 0⟩).cal).counts.events_updated = 0 ∧
    (lambda_handler {} 0
        [(⟨"Math", "exercise 1", "d", 5, "homework", some "h1"⟩, Fault.ok)]
        [(⟨"Math", "algebra test", "d", 8, some "T", some "2", "evaluation",
            some "e1"⟩, Fault.ok)]
        (lambda_handler {} 0
          [(⟨"Math", "exercise 1", "d", 5, "homework", some "h1"⟩, Fault.ok)]
          [(⟨"Math", "algebra test", "d", 8, some "T", some "2", "evaluation",
              some "e1"⟩, Fault.ok)]
          ⟨[], 0⟩).cal).counts.exam_events_created = 0 ∧
    (lambda_handler {} 0
        [(⟨"Math", "exercise 1", "d", 5, "homework", some "h1"⟩, Fault.ok)]
        [(⟨"Math", "algebra test", "d", 8, some "T", some "2", "evaluation",
            some "e1"⟩, Fault.ok)]
        (lambda_handler {} 0
          [(⟨"Math", "exercise 1", "d", 5, "homework", some "h1"⟩, Fault.ok)]
          [(⟨"Math", "algebra test", "d", 8, some "T", some "2", "evaluation",
              some "e1"⟩, Fault.ok)]
          ⟨[], 0⟩).cal).counts.reminder_events_created = 0 ∧
    (lambda_handler {} 0
        [(⟨"Math", "exercise 1", "d", 5, "homework", some "h1"⟩, Fault.ok)]
        [(⟨"Math", "algebra test", "d", 8, some "T", some "2", "evaluation",
            some "e1"⟩, Fault.ok)]
        (lambda_handler {} 0
          [(⟨"Math", "exercise 1", "d", 5, "homework", some "h1"⟩, Fault.ok)]
          [(⟨"Math", "algebra test", "d", 8, some "T", some "2", "evaluation",
              some "e1"⟩, Fault.ok)]
          ⟨[], 0⟩).cal).counts.events_skipped = 1 + 1 ∧
    (lambda_handler {} 0
        [(⟨"Math", "exercise 1", "d", 5, "homework", some "h1"⟩, Fault.ok)]
        [(⟨"Math", "algebra test", "d", 8, some "T", some "2", "evaluation",
            some "e1"⟩, Fault.ok)]
        (lambda_handler {} 0
          [(⟨"Math", "exercise 1", "d", 5, "homework", some "h1"⟩, Fault.ok)]
          [(⟨"Math", "algebra test", "d", 8, some "T", some "2", "evaluation",
              some "e1"⟩, Fault.ok)]
          ⟨[], 0⟩).cal).cal =
      (lambda_handler {} 0
        [(⟨"Math", "exercise 1", "d", 5, "homework", some "h1"⟩, Fault.ok)]
        [(⟨"Math", "algebra test", "d", 8, some "T", some "2", "evaluation",
            some "e1"⟩, Fault.ok)]
        ⟨[], 0⟩).cal :=
  claim_c1_idempotence {} 0 0
    [⟨"Math", "exercise 1", "d", 5, "homework", some "h1"⟩]
    [⟨"Math", "algebra test", "d", 8, some "T", some "2", "evaluation",
      some "e1"⟩]
    rfl (by decide) (by decide) (by decide) (by decide) (by decide) (by decide)

theorem char_ofNat_toNat (n : Nat) (h : n.isValidChar) :
    (Char.ofNat n).toNat = n := by
  unfold Char.ofNat
  rw [dif_pos h]
  rfl

theorem pyLowerChar_space (c : Char) :
    pyIsSpace (pyLowerChar c) = pyIsSpace c := by
  unfold pyLowerChar
  by_cases h1 : (decide (65 ≤ c.toNat) && decide (c.toNat ≤ 90)) = true
  · rw [if_pos h1]
    have hb : 65 ≤ c.toNat ∧ c.toNat ≤ 90 := by simpa using h1
    have hv : (Char.ofNat (c.toNat + 32)).toNat = c.toNat + 32 :=
      char_ofNat_toNat _ (Or.inl (by omega))
    have hL : pyIsSpace (Char.ofNat (c.toNat + 32)) = false := by
      simp [pyIsSpace, hv]
      omega
    have hR : pyIsSpace c = false := by
      simp [pyIsSpace]
      omega
    rw [hL, hR]
  · rw [if_neg (by simpa using h1)]
    by_cases h2 : (decide (192 ≤ c.toNat) && decide (c.toNat ≤ 222) &&
        c.toNat != 215) = true
    · rw [if_pos h2]
      have hb : 192 ≤ c.toNat ∧ c.toNat ≤ 222 := by
        have := h2
        simp at this
        exact ⟨this.1.1, this.1.2⟩
      have hv : (Char.ofNat (c.toNat + 32)).toNat = c.toNat + 32 :=
        char_ofNat_toNat _ (Or.inl (by omega))
      have hL : pyIsSpace (Char.ofNat (c.toNat + 32)) = false := by
        simp [pyIsSpace, hv]
        omega
      have hR : pyIsSpace c = false := by
        simp [pyIsSpace]
        omega
      rw [hL, hR]
    · rw [if_neg (by simpa using h2)]

theorem dropWhile_map_lower (l : List Char) :
    (l.map pyLowerChar).dropWhile pyIsSpace =
      (l.dropWhile pyIsSpace).map pyLowerChar := by
  induction l with
  | nil => rfl
  | cons c cs ih =>
    simp only [List.map_cons, List.dropWhile_cons, pyLowerChar_space]
    cases h : pyIsSpace c with
    | true => simpa using ih
    | false => simp

theorem stripList_map_lower (l : List Char) :
    stripList (l.map pyLowerChar) = (stripList l).map pyLowerChar := by
  unfold stripList
  calc (((l.map pyLowerChar).dropWhile pyIsSpace).reverse.dropWhile
          pyIsSpace).reverse
      = ((((l.dropWhile pyIsSpace).map pyLowerChar).reverse).dropWhile
          pyIsSpace).reverse := by rw [dropWhile_map_lower]
    _ = ((((l.dropWhile pyIsSpace).reverse).map pyLowerChar).dropWhile
          pyIsSpace).reverse := by rw [List.map_reverse]
    _ = (((l.dropWhile pyIsSpace).reverse.dropWhile pyIsSpace).map
          pyLowerChar).reverse := by rw [dropWhile_map_lower]
    _ = (((l.dropWhile pyIsSpace).reverse.dropWhile pyIsSpace).reverse).map
          pyLowerChar := by rw [List.map_reverse]

theorem stripList_append_left (p l : List Char)
    (hp : ∀ c ∈ p, pyIsSpace c = true) :
    stripList (p ++ l) = stripList l := by
  unfold stripList
  rw [List.dropWhile_append_of_pos hp]

theorem stripList_append_right (l q : List Char)
    (hq : ∀ c ∈ q, pyIsSpace c = true) :
    stripList (l ++ q) = stripList l := by
  unfold stripList
  rw [List.dropWhile_append]
  by_cases h : (l.dropWhile pyIsSpace).isEmpty
  · rw [if_pos h]
    have hq0 : q.dropWhile pyIsSpace = [] := by
      have h2 := @List.dropWhile_append_of_pos Char pyIsSpace q [] hq
      rwa [List.append_nil] at h2
    have hl0 : l.dropWhile pyIsSpace = [] := by
      cases hc : l.dropWhile pyIsSpace with
      | nil => rfl
      | cons a as => rw [hc] at h; simp [List.isEmpty] at h
    rw [hq0, hl0]
  · rw [if_neg h, List.reverse_append]
    rw [List.dropWhile_append_of_pos
      (fun c hc => hq c (List.mem_reverse.mp hc))]

theorem normalizeField_eq (p q s s2 : String)
    (hp : ∀ c ∈ p.data, pyIsSpace c = true)
    (hq : ∀ c ∈ q.data, pyIsSpace c = true)
    (hlow : s2.data.map pyLowerChar = s.data.map pyLowerChar) :
    normalizeField (p ++ s2 ++ q) = normalizeField s := by
  unfold normalizeField
  have hdata : (p ++ s2 ++ q).data = p.data ++ (s2.data ++ q.data) := by
    simp
  rw [hdata, stripList_append_left _ _ hp, stripList_append_right _ _ hq]
  rw [← stripList_map_lower, hlow, stripList_map_lower]

/-- C6: the content hash is deterministic by construction and invariant
under case changes and leading/trailing whitespace padding of subject and
description, for both the homework and the exam hash family (the inputs
are stripped, lowercased and the date rendered ISO before hashing); dates
with different ISO renderings and descriptions with different normalized
forms produce different digest inputs, and at concrete instances a one-day
date change or a one-character description change produces a different
digest. -/
theorem claim_c6_hash_determinism
    (subject description subject2 description2 p q r t : String)
    (d d2 : PDate) (source_type : String)
    (hp : ∀ c ∈ p.data, pyIsSpace c = true)
    (hq : ∀ c ∈ q.data, pyIsSpace c = true)
    (hr : ∀ c ∈ r.data, pyIsSpace c = true)
    (ht : ∀ c ∈ t.data, pyIsSpace c = true)
    (hsub : subject2.data.map pyLowerChar = subject.data.map pyLowerChar)
    (hdesc : description2.data.map pyLowerChar =
      description.data.map pyLowerChar) :
    (generate_content_hash (p ++ subject2 ++ q) d (r ++ description2 ++ t) =
      generate_content_hash subject d description) ∧
    (generate_exam_content_hash (p ++ subject2 ++ q) d (r ++ description2 ++ t)
        source_type =
      generate_exam_content_hash subject d description source_type) ∧
    (iso_date d2 ≠ iso_date d →
      hashInputChars subject d2 description ≠
        hashInputChars subject d description) ∧
    (∀ desc2 : String, normalizeField desc2 ≠ normalizeField description →
      hashInputChars subject d desc2 ≠ hashInputChars subject d description) ∧
    (generate_content_hash "Math" ⟨2025, 3, 14⟩ "read chapter 5" ≠
      generate_content_hash "Math" ⟨2025, 3, 15⟩ "read chapter 5") ∧
    (generate_content_hash "Math" ⟨2025, 3, 14⟩ "read chapter 5" ≠
      generate_content_hash "Math" ⟨2025, 3, 14⟩ "read chapter 6") := by
  have h1 := normalizeField_eq p q subject subject2 hp hq hsub
  have h2 := normalizeField_eq r t description description2 hr ht hdesc
  refine ⟨?_, ?_, ?_, ?_, by decide, by decide⟩
  · simp [generate_content_hash, hashInputChars, h1, h2]
  · simp [generate_exam_content_hash, examHashInputChars, h1, h2]
  · intro hne heq
    unfold hashInputChars at heq
    have hc1 := List.append_cancel_right heq
    have hc2 := List.append_cancel_left hc1
    have hc3 : (iso_date d2).data = (iso_date d).data := by
      simpa using hc2
    exact hne (String.ext hc3)
  · intro desc2 hne heq
    unfold hashInputChars at heq
    have hc1 := List.append_cancel_left heq
    have hc2 : ('|' :: normalizeField desc2) =
        ('|' :: normalizeField description) := hc1
    exact hne (by simpa using hc2)

/-- Witness for C6: the hash of "  MATH  " / " Read Chapter 5 " with
whitespace padding and case changes equals the hash of "Math" /
"read chapter 5", and the concrete one-day and one-character changes give
different digests. -/
theorem claim_c6_witness :
    (generate_content_hash (" " ++ "MATH" ++ "  ") ⟨2025, 3, 14⟩
        (" " ++ "Read Chapter 5" ++ "") =
      generate_content_hash "Math" ⟨2025, 3, 14⟩ "read chapter 5") ∧
    (generate_exam_content_hash (" " ++ "MATH" ++ "  ") ⟨2025, 3, 14⟩
        (" " ++ "Read Chapter 5" ++ "") "evaluation" =
      generate_exam_content_hash "Math" ⟨2025, 3, 14⟩ "read chapter 5"
        "evaluation") ∧
    (iso_date ⟨2025, 3, 15⟩ ≠ iso_date ⟨2025, 3, 14⟩ →
      hashInputChars "Math" ⟨2025, 3, 15⟩ "read chapter 5" ≠
        hashInputChars "Math" ⟨2025, 3, 14⟩ "read chapter 5") ∧
    (∀ desc2 : String, normalizeField desc2 ≠ normalizeField "read chapter 5" →
      hashInputChars "Math" ⟨2025, 3, 14⟩ desc2 ≠
        hashInputChars "Math" ⟨2025, 3, 14⟩ "read chapter 5") ∧
    (generate_content_hash "Math" ⟨2025, 3, 14⟩ "read chapter 5" ≠
      generate_content_hash "Math" ⟨2025, 3, 15⟩ "read chapter 5") ∧
    (generate_content_hash "Math" ⟨2025, 3, 14⟩ "read chapter 5" ≠
      generate_content_hash "Math" ⟨2025, 3, 14⟩ "read chapter 6") :=
  claim_c6_hash_determinism "Math" "read chapter 5" "MATH" "Read Chapter 5"
    " " "  " " " "" ⟨2025, 3, 14⟩ ⟨2025, 3, 15⟩ "evaluation"
    (by decide) (by decide) (by decide) (by decide) (by decide) (by decide)
